import Mathlib

/-
  Verification development for the pg-strom chunked data-store and GPU
  bitonic sort engine.

  The definitions below are a shallow embedding of the C sources:
    - src/unnamed/part_000 ("datastore.c"): data-store layout engine,
      row ingestion, parameter-buffer builder;
    - src/src/cuda_gpusort.h: the bitonic sort kernel pipeline.

  Machine integers are modelled as Nat (all the quantities involved are
  non-negative in the source; overflow is never approached by the claims
  under study).  Fallible code returns Except.  Memory regions are
  modelled at the byte level where a claim depends on byte contents
  (parameter buffer), and as structured records plus explicit offset
  arithmetic elsewhere.
-/

namespace PgStrom

/-- Decidable equality for Except results (used to evaluate the embedded
fallible operations on concrete inputs). -/
instance {ε α : Type} [DecidableEq ε] [DecidableEq α] :
    DecidableEq (Except ε α) := fun x y =>
  match x, y with
  | .ok a, .ok b =>
    if h : a = b then .isTrue (by rw [h])
    else .isFalse (by intro hc; injection hc; contradiction)
  | .error a, .error b =>
    if h : a = b then .isTrue (by rw [h])
    else .isFalse (by intro hc; injection hc; contradiction)
  | .ok _, .error _ => .isFalse (by intro hc; exact Except.noConfusion hc)
  | .error _, .ok _ => .isFalse (by intro hc; exact Except.noConfusion hc)

/-! ## Alignment primitives (PostgreSQL c.h / pg_strom.h)

TYPEALIGN(a,len) rounds len up to a multiple of a (a is a power of two in
every use site; for natural numbers the bit-masking C definition agrees
with the arithmetic rounding below). -/

/-- TYPEALIGN(ALIGNVAL, LEN) of PostgreSQL: round LEN up to a multiple of
ALIGNVAL. -/
def TYPEALIGN (a x : Nat) : Nat := ((x + a - 1) / a) * a

/-- MAXALIGN: alignment to 8 bytes (MAXIMUM_ALIGNOF on x86-64). -/
def MAXALIGN (x : Nat) : Nat := TYPEALIGN 8 x

/-- LONGALIGN: alignment to sizeof(long) = 8 bytes. -/
def LONGALIGN (x : Nat) : Nat := TYPEALIGN 8 x

/-- Modelled from the spec: STROMALIGN_LEN, the fixed platform alignment
unit of pg_strom.h ("rounded to a fixed alignment unit"); the header
defining it is not part of src/.  Its concrete value is 16 bytes. -/
def STROMALIGN_LEN : Nat := 16

/-- STROMALIGN: round up to the STROMALIGN_LEN boundary. -/
def STROMALIGN (x : Nat) : Nat := TYPEALIGN STROMALIGN_LEN x

/-- BLCKSZ: the PostgreSQL page size. -/
def BLCKSZ : Nat := 8192

/-- INT_MAX of the host C compiler. -/
def INT_MAX : Nat := 2 ^ 31 - 1

/-- NUMERICOID: the PostgreSQL catalog oid of the NUMERIC type. -/
def NUMERICOID : Nat := 1700

/-! ## Data-store layout constants

The kern_data_store / kern_tupitem / kern_parambuf struct layouts live in
a device-common header that is not part of src/; the byte offsets below
are modelled constants.  Every claim proved here is insensitive to their
concrete values (they enter only through the explicit offset arithmetic
that the source performs on them). -/

/-- Modelled from the spec: byte offset of the colmeta[] flexible array
inside kern_data_store (the fixed chunk header: total length, usage,
ncols, nitems, capacity, format tag, row-type identity). -/
def kds_colmeta_offset : Nat := 40

/-- Modelled from the spec: sizeof(kern_colmeta), one column-metadata
entry (is-fixed flag, alignment, length, column number, cached offset). -/
def sizeof_kern_colmeta : Nat := 8

/-- Modelled from the spec: KERN_DATA_STORE_BODY — the body region starts
at STROMALIGN(offsetof(kern_data_store, colmeta[ncols])); this matches
the explicit expression the source uses in
pgstrom_data_store_insert_block (src/unnamed/part_000:577). -/
def KERN_DATA_STORE_BODY_OFS (ncols : Nat) : Nat :=
  STROMALIGN (kds_colmeta_offset + ncols * sizeof_kern_colmeta)

/-- Modelled from the spec: offsetof(kern_tupitem, htup).  A row-format
item is "original row length, original row identity (page/slot locator),
and a byte-for-byte copy of the row's native encoded representation":
cl_uint t_len (4 bytes), ItemPointerData t_self (6 bytes), padding to the
4-byte alignment of HeapTupleHeaderData. -/
def kern_tupitem_htup_ofs : Nat := 12

/-- Modelled from the spec: offsetof(HeapTupleHeaderData, t_bits) of
PostgreSQL (23 bytes of fixed heap-tuple header before the null bitmap). -/
def heap_tuple_header_t_bits_ofs : Nat := 23

/-- Modelled from the spec: sizeof(Oid). -/
def sizeof_Oid : Nat := 4

/-- KDS_FORMAT_ROW format tag (modelled constant from the missing common
header; only its distinctness from KDS_FORMAT_SLOT matters). -/
def KDS_FORMAT_ROW : Nat := 1

/-- KDS_FORMAT_SLOT format tag. -/
def KDS_FORMAT_SLOT : Nat := 2

/-! ## Data model: tuple descriptors and column metadata -/

/-- Attalign codes of pg_attribute.attalign. -/
inductive AttAlignCode where
  | alignChar   -- 'c'
  | alignShort  -- 's'
  | alignInt    -- 'i'
  | alignDouble -- 'd'
deriving DecidableEq

/-- Modelled from the spec: typealign_get_width, mapping an attalign code
to its byte width (the helper is defined outside src/; standard
PostgreSQL semantics). -/
def typealign_get_width : AttAlignCode → Nat
  | .alignChar => 1
  | .alignShort => 2
  | .alignInt => 4
  | .alignDouble => 8

/-- Form_pg_attribute, restricted to the fields the embedded code reads.
attnotnull is carried by the catalog entry; note that
init_kern_data_store never reads it. -/
structure PgAttribute where
  attbyval : Bool
  attalign : AttAlignCode
  attlen : Int
  attnum : Int
  atttypid : Nat
  attnotnull : Bool
deriving DecidableEq

instance : Inhabited PgAttribute :=
  ⟨⟨false, .alignChar, 0, 0, 0, false⟩⟩

/-- TupleDesc, restricted to the fields the embedded code reads
(natts is attrs.length). -/
structure TupleDesc where
  attrs : List PgAttribute
  tdhasoid : Bool
  tdtypeid : Nat
  tdtypmod : Int
deriving DecidableEq

/-- kern_colmeta: per-column metadata stored in the chunk header. -/
structure KernColmeta where
  attbyval : Bool
  attalign : Nat
  attlen : Int
  attnum : Int
  attcacheoff : Int
deriving DecidableEq

instance : Inhabited KernColmeta := ⟨⟨false, 0, 0, 0, 0⟩⟩

/-- ItemPointerData: the row identity (block number, line offset). -/
structure ItemPointer where
  blk : Nat
  off : Nat
deriving DecidableEq

instance : Inhabited ItemPointer := ⟨⟨0, 0⟩⟩

/-- kern_tupitem: one serialized row-format item — original row length,
row identity, and the copied native row encoding (htup bytes). -/
structure KernTupitem where
  t_len : Nat
  t_self : ItemPointer
  htup : List Nat
deriving DecidableEq

instance : Inhabited KernTupitem := ⟨⟨0, default, []⟩⟩

/-- kern_data_store: the chunk.  The body region is modelled as the
forward-growing row_index array (chunk-relative byte offsets of items)
plus rowPayload, an association from the chunk-relative byte offset of
each written item to its serialized contents (most recent write first,
as raw memory would be observed). -/
structure KernDataStore where
  length : Nat
  usage : Nat
  ncols : Nat
  nitems : Nat
  nrooms : Nat
  format : Nat
  tdhasoid : Bool
  tdtypeid : Nat
  tdtypmod : Int
  colmeta : List KernColmeta
  row_index : List Nat
  rowPayload : List (Nat × KernTupitem)
deriving DecidableEq

/-- Raw-memory style write into the row-index area: position i receives
value v; slots never written before read as 0. -/
def rowIndexWrite (l : List Nat) (i v : Nat) : List Nat :=
  (l ++ List.replicate (i + 1 - l.length) 0).set i v

/-! ## init_kern_data_store (src/unnamed/part_000:267-332) -/

/-- TYPEALIGN on a (positive) int-typed running offset, as the source
applies it to attcacheoff. -/
def TYPEALIGN_I (a : Nat) (x : Int) : Int :=
  ((x + (a : Int) - 1) / (a : Int)) * (a : Int)

/-- Effective per-column (attbyval, attalign, attlen) after the
internal-format NUMERIC override of init_kern_data_store. -/
def effectiveColAttrs (internal_format : Bool) (attr : PgAttribute) :
    Bool × Nat × Int :=
  if internal_format ∧ attr.atttypid = NUMERICOID then
    (true, 8, (8 : Int))
  else
    (attr.attbyval, typealign_get_width attr.attalign, attr.attlen)

/-- Loop body of init_kern_data_store: given the incoming attcacheoff and
one attribute, produce the kern_colmeta entry and the next attcacheoff. -/
def initColmetaStep (internal_format : Bool) (attcacheoff : Int)
    (attr : PgAttribute) : KernColmeta × Int :=
  let e := effectiveColAttrs internal_format attr
  let attbyval := e.1
  let attalign := e.2.1
  let attlen := e.2.2
  let attcacheoff' :=
    if attcacheoff > 0 then
      if attlen > 0 then TYPEALIGN_I attalign attcacheoff
      else (-1 : Int)
    else attcacheoff
  (⟨attbyval, attalign, attlen, attr.attnum, attcacheoff'⟩,
   if attcacheoff' ≥ 0 then attcacheoff' + attlen else attcacheoff')

/-- Column-metadata loop of init_kern_data_store. -/
def initColmetaList (internal_format : Bool) (attcacheoff : Int) :
    List PgAttribute → List KernColmeta
  | [] => []
  | attr :: rest =>
    let s := initColmetaStep internal_format attcacheoff attr
    s.1 :: initColmetaList internal_format s.2 rest

/-- Initial attcacheoff: after the fixed heap-tuple header, plus an
optional OID slot, MAXALIGN-rounded. -/
def initAttcacheoff (tdhasoid : Bool) : Int :=
  (MAXALIGN (heap_tuple_header_t_bits_ofs +
             (if tdhasoid then sizeof_Oid else 0)) : Int)

/-- init_kern_data_store: fill the chunk header and the column-metadata
array (src/unnamed/part_000:267-332).  The caller passes the chunk being
initialized (whose body fields are reset here). -/
def init_kern_data_store (kds : KernDataStore) (tupdesc : TupleDesc)
    (length : Nat) (format : Nat) (nrooms : Nat)
    (internal_format : Bool) : KernDataStore :=
  { kds with
    length := length
    usage := 0
    ncols := tupdesc.attrs.length
    nitems := 0
    nrooms := nrooms
    format := format
    tdhasoid := tupdesc.tdhasoid
    tdtypeid := tupdesc.tdtypeid
    tdtypmod := tupdesc.tdtypmod
    colmeta := initColmetaList internal_format
                 (initAttcacheoff tupdesc.tdhasoid) tupdesc.attrs }

/-! ## pgstrom_data_store_insert_tuple (src/unnamed/part_000:646-687) -/

/-- HeapTuple as fetched from a TupleTableSlot: row length, row identity,
and the native encoded bytes t_data. -/
structure HeapTupleModel where
  t_len : Nat
  t_self : ItemPointer
  t_data : List Nat
deriving DecidableEq

/-- pgstrom_data_store_insert_tuple: append one tuple to a row-format
chunk; false (non-fatal) when capacity or space is exhausted. -/
def pgstrom_data_store_insert_tuple (kds : KernDataStore)
    (tuple : HeapTupleModel) : Except String (Bool × KernDataStore) :=
  if kds.nitems ≥ kds.nrooms then
    .ok (false, kds)
  else if kds.format ≠ KDS_FORMAT_ROW then
    .error "Bug? unexpected data-store format"
  else
    let itemsz := LONGALIGN (kern_tupitem_htup_ofs + tuple.t_len)
    let consume := KERN_DATA_STORE_BODY_OFS kds.ncols
                   + 4 * (kds.nitems + 1)     -- index region incl. new entry
                   + kds.usage                -- from the tail
                   + itemsz                   -- newly added
    if consume > kds.length then
      .ok (false, kds)
    else
      let usage' := kds.usage + itemsz
      let ofs := kds.length - usage'
      .ok (true,
        { kds with
          usage := usage'
          rowPayload := (ofs, ⟨tuple.t_len, tuple.t_self,
                               tuple.t_data.take tuple.t_len⟩)
                        :: kds.rowPayload
          row_index := rowIndexWrite kds.row_index kds.nitems ofs
          nitems := kds.nitems + 1 })

/-! ## kern_fetch_data_store (src/unnamed/part_000:185-230) -/

/-- Result of a fetch: a reconstructed row handle (row format, zero-copy
reference to the stored bytes) or a virtual tuple (slot format). -/
inductive FetchedRow where
  | rowForm (t_len : Nat) (t_self : ItemPointer) (t_data : List Nat)
  | slotVirtual (row_index : Nat)
deriving DecidableEq

/-- kern_fetch_data_store: out-of-range yields "no row"; row format
reconstructs the row handle from the item the index array points at;
slot format exposes the per-item arrays as a virtual tuple.  Reading an
offset no item was written at is unspecified memory, modelled as the
default item. -/
def kern_fetch_data_store (kds : KernDataStore) (row_index : Nat) :
    Except String (Option FetchedRow) :=
  if row_index ≥ kds.nitems then
    .ok none
  else if kds.format = KDS_FORMAT_ROW then
    let ofs := kds.row_index.getD row_index 0
    let item := ((kds.rowPayload.find? (fun p => p.1 = ofs)).map Prod.snd).getD
                  default
    .ok (some (.rowForm item.t_len item.t_self item.htup))
  else if kds.format = KDS_FORMAT_SLOT then
    .ok (some (.slotVirtual row_index))
  else
    .error "Bug? unexpected data-store format"

/-! ## pgstrom_data_store_insert_block (src/unnamed/part_000:533-638)

The relation page and the visibility machinery are PostgreSQL externals:
a page is a list of line items, each carrying its ItemId state (normal or
not), its length and bytes, and the verdict HeapTupleSatisfiesVisibility
would return for it under the supplied snapshot (an oracle parameter).
heap_page_prune_opt mutates only the page, never the chunk, and is not
modelled further. -/

/-- One line pointer of a heap page together with its tuple. -/
structure PageLineItem where
  normal : Bool      -- ItemIdIsNormal
  t_len : Nat        -- ItemIdGetLength
  bytes : List Nat   -- the tuple's native encoded representation
  visible : Bool     -- HeapTupleSatisfiesVisibility verdict
deriving DecidableEq

/-- A heap page: all-visible flag plus line items in line-offset order. -/
structure PageModel where
  allVisible : Bool
  items : List PageLineItem
deriving DecidableEq

/-- Snapshot, restricted to the field the embedded code reads. -/
structure SnapshotModel where
  takenDuringRecovery : Bool
deriving DecidableEq

/-- Inner scan loop of pgstrom_data_store_insert_block: walk the line
items in increasing offset order, appending each visible normal tuple to
the backward-growing payload region and the forward-growing index array.
lineoff is the 1-based line offset used for the stored row identity. -/
def insertBlockScan (blknum : Nat) (all_visible : Bool)
    (kds0 : KernDataStore) :
    List PageLineItem → Nat → Nat → KernDataStore → Nat × KernDataStore
  | [], _, ntup, kds => (ntup, kds)
  | item :: rest, lineoff, ntup, kds =>
    if ¬ item.normal then
      insertBlockScan blknum all_visible kds0 rest (lineoff + 1) ntup kds
    else
      let valid := if all_visible then true else item.visible
      if ¬ valid then
        insertBlockScan blknum all_visible kds0 rest (lineoff + 1) ntup kds
      else
        let usage' := kds.usage + LONGALIGN item.t_len
        let ofs := kds.length - usage'
        let kds' :=
          { kds with
            usage := usage'
            rowPayload := (ofs, ⟨item.t_len, ⟨blknum, lineoff⟩,
                                 item.bytes.take item.t_len⟩)
                          :: kds.rowPayload
            row_index := rowIndexWrite kds.row_index (kds0.nitems + ntup) ofs }
        insertBlockScan blknum all_visible kds0 rest (lineoff + 1)
          (ntup + 1) kds'

set_option linter.unusedVariables false in
/-- pgstrom_data_store_insert_block: load every visible tuple of one heap
page into a row-format chunk; returns the inserted count, or -1 (chunk
untouched) when the worst-case space estimate exceeds the chunk length.
The page_prune flag drives heap_page_prune_opt, which mutates only the
page, never the chunk, and so does not appear in the result. -/
def pgstrom_data_store_insert_block (kds : KernDataStore)
    (blknum : Nat) (page : PageModel) (snapshot : SnapshotModel)
    (page_prune : Bool) : Int × KernDataStore :=
  let lines := page.items.length
  let max_consume := STROMALIGN (kds_colmeta_offset +
                                 kds.ncols * sizeof_kern_colmeta)
                     + 4 * (kds.nitems + lines)
                     + kern_tupitem_htup_ofs * lines
                     + BLCKSZ
                     + kds.usage
  if max_consume > kds.length then
    (-1, kds)
  else
    let all_visible := page.allVisible ∧ ¬ snapshot.takenDuringRecovery
    let s := insertBlockScan blknum (decide all_visible) kds page.items 1 0 kds
    let ntup := s.1
    ((ntup : Int), { s.2 with nitems := kds.nitems + ntup })

/-! ## pgstrom_create_data_store_row (src/unnamed/part_000:334-402)

Filesystem interactions are recorded as an event trace.  The source
declares a local `Size kds_length` that it never assigns and then passes
to mmap; that indeterminate value is modelled as the explicit parameter
uninit_kds_length. -/

/-- Filesystem events performed by chunk creation. -/
inductive FsEvent where
  | fileCreate                  -- OpenTransientFile(O_RDWR|O_CREAT|O_TRUNC, 0600)
  | fileTruncate (len : Nat)    -- ftruncate
  | fileMmap (len : Nat) (readwrite shared populate : Bool)
  | fileClose                   -- CloseTransientFile right after mmap
deriving DecidableEq

/-- Result of pgstrom_create_data_store_row: the pgstrom_data_store
fields the claims observe, plus the filesystem event trace. -/
structure PgstromDataStoreRow where
  kds_length : Nat
  kds_offset : Nat
  file_mapped : Bool
  events : List FsEvent
  kds : KernDataStore
deriving DecidableEq

/-- Blank chunk memory handed to init_kern_data_store by creation. -/
def blankKds : KernDataStore :=
  ⟨0, 0, 0, 0, 0, 0, false, 0, 0, [], [], []⟩

/-- pgstrom_create_data_store_row: allocate (heap or file-mapped) and
initialize a row-format chunk.  uninit_kds_length stands for the value of
the local variable kds_length, which the source reads without ever
assigning (the mmap length argument and nothing else). -/
def pgstrom_create_data_store_row (tupdesc : TupleDesc) (length : Nat)
    (file_mapped : Bool) (uninit_kds_length : Nat) : PgstromDataStoreRow :=
  let computed := STROMALIGN (kds_colmeta_offset +
                              tupdesc.attrs.length * sizeof_kern_colmeta)
                  + STROMALIGN length
  let events :=
    if file_mapped then
      [FsEvent.fileCreate,
       FsEvent.fileTruncate computed,          -- ftruncate(fd, pds->kds_length)
       FsEvent.fileMmap uninit_kds_length true true true,  -- mmap(NULL, kds_length, ...)
       FsEvent.fileClose]
    else
      []
  { kds_length := computed
    kds_offset := 0
    file_mapped := file_mapped
    events := events
    kds := init_kern_data_store blankKds tupdesc computed
             KDS_FORMAT_ROW INT_MAX false }

/-! ## pgstrom_create_kern_parambuf (src/unnamed/part_000:57-164)

The StringInfo buffer is modelled as a list of bytes.  kern_parambuf
layout (header not in src/, modelled from the spec: "header (total
length, parameter count) + offset array (one slot per parameter; 0 means
null) + variable-length payload area"): cl_uint length at byte 0,
cl_uint nparams at byte 4, cl_uint poffset[] from byte 8.  Multi-byte
stores follow the little-endian host.  The bytes of the uninitialized
stack padding array are modelled as 0 (no claim observes them). -/

/-- Byte offset of poffset[0] inside kern_parambuf (modelled, see above). -/
def kparambuf_poffset_ofs : Nat := 8

/-- Little-endian byte image of the low n bytes of a value, as memcpy
from the address of a C integer produces on the host. -/
def leBytes (v n : Nat) : List Nat :=
  (List.range n).map (fun k => (v >>> (8 * k)) % 256)

/-- Store a cl_uint at byte position p (little-endian). -/
def writeU32At (buf : List Nat) (p v : Nat) : List Nat :=
  (((buf.set p (v % 256)).set (p + 1) ((v >>> 8) % 256)).set (p + 2)
     ((v >>> 16) % 256)).set (p + 3) ((v >>> 24) % 256)

/-- Read a cl_uint at byte position p (little-endian). -/
def readU32At (buf : List Nat) (p : Nat) : Nat :=
  buf.getD p 0 + 256 * buf.getD (p + 1) 0 + 65536 * buf.getD (p + 2) 0
  + 16777216 * buf.getD (p + 3) 0

/-- Pad the buffer to the next STROMALIGN boundary with bytes from the
uninitialized stack padding array (modelled as 0). -/
def stromalignPad (buf : List Nat) : List Nat :=
  buf ++ List.replicate (STROMALIGN buf.length - buf.length) 0

/-- Const expression node (fields the embedded code reads).  constvalue
is the Datum word for pass-by-value constants; varlenaBytes are the
pointed-to bytes of a varlena constant, whose length is its VARSIZE. -/
structure ConstNode where
  constisnull : Bool
  constlen : Int
  constvalue : Nat
  varlenaBytes : List Nat
deriving DecidableEq

/-- Param expression node (fields the embedded code reads). -/
structure ParamNode where
  paramid : Int
  paramtype : Nat
deriving DecidableEq

/-- Expression nodes pgstrom_create_kern_parambuf distinguishes. -/
inductive PgNode where
  | constNode (c : ConstNode)
  | paramNode (p : ParamNode)
  | otherNode
deriving DecidableEq

/-- ParamExternData: one entry of the external parameter array.  ptype 0
models an invalid Oid.  value / varlenaBytes as in ConstNode. -/
structure ParamExternData where
  ptype : Nat
  isnull : Bool
  value : Nat
  varlenaBytes : List Nat
deriving DecidableEq

instance : Inhabited ParamExternData := ⟨⟨0, true, 0, []⟩⟩

/-- ParamListInfo: parameter count, entries, and the optional late
paramFetch hook; the hook is modelled by the state params[paramid-1] has
after the hook ran for paramid. -/
structure ParamListInfo where
  numParams : Int
  params : List ParamExternData
  paramFetch : Option (Int → ParamExternData)

/-- ExprContext, restricted to the field the embedded code reads. -/
structure ExprContext where
  ecxt_param_list_info : Option ParamListInfo

/-- Append the encoded bytes of a non-null value: fixed-size copy of the
Datum word when typlen > 0, the full varlena copy otherwise. -/
def appendDatumBytes (buf : List Nat) (typlen : Int) (value : Nat)
    (varlenaBytes : List Nat) : List Nat :=
  if typlen > 0 then buf ++ leBytes value typlen.toNat
  else buf ++ varlenaBytes

/-- Loop body of pgstrom_create_kern_parambuf for one expression node:
takes (buffer, index), returns the updated state or a fatal error.
get_typlen is the catalog oracle. -/
def kparambufStep (get_typlen : Nat → Int) (econtext : ExprContext)
    (node : PgNode) (str : List Nat) (index : Nat) :
    Except String (List Nat × Nat) :=
  match node with
  | .constNode con =>
    let str :=
      if con.constisnull then
        writeU32At str (kparambuf_poffset_ofs + 4 * index) 0
      else
        appendDatumBytes
          (writeU32At str (kparambuf_poffset_ofs + 4 * index) str.length)
          con.constlen con.constvalue con.varlenaBytes
    .ok (stromalignPad str, index + 1)
  | .paramNode param =>
    match econtext.ecxt_param_list_info with
    | some param_info =>
      if param.paramid > 0 ∧ param.paramid ≤ param_info.numParams then
        let prm0 := param_info.params.getD (param.paramid - 1).toNat default
        let prm :=
          match param_info.paramFetch with
          | some hook => if prm0.ptype = 0 then hook param.paramid else prm0
          | none => prm0
        if prm.ptype = 0 then
          -- elog(INFO, ...): not an error; poffset[index++] = 0; continue
          .ok (writeU32At str (kparambuf_poffset_ofs + 4 * index) 0,
               index + 1)
        else if prm.ptype ≠ param.paramtype then
          .error "type of parameter does not match that when preparing the plan"
        else if prm.isnull then
          .ok (stromalignPad
                 (writeU32At str (kparambuf_poffset_ofs + 4 * index) 0),
               index + 1)
        else
          let typlen := get_typlen prm.ptype
          if typlen = 0 then
            .error "cache lookup failed for type"
          else
            -- NOTE: unlike the Const branch, the source never stores
            -- str.len into poffset[index] on this path; it only appends
            -- the encoded bytes.
            .ok (stromalignPad
                   (appendDatumBytes str typlen prm.value prm.varlenaBytes),
                 index + 1)
      else
        .ok (stromalignPad str, index + 1)
    | none =>
      .ok (stromalignPad str, index + 1)
  | .otherNode =>
    .error "unexpected node"

/-- Loop of pgstrom_create_kern_parambuf over the Const/Param list. -/
def kparambufLoop (get_typlen : Nat → Int) (econtext : ExprContext) :
    List PgNode → List Nat → Nat → Except String (List Nat × Nat)
  | [], str, index => .ok (str, index)
  | node :: rest, str, index =>
    match kparambufStep get_typlen econtext node str index with
    | .error e => .error e
    | .ok (str', index') => kparambufLoop get_typlen econtext rest str' index'

/-- pgstrom_create_kern_parambuf: serialize the Const/Param list into one
offset-based parameter buffer (returned as its byte image). -/
def pgstrom_create_kern_parambuf (get_typlen : Nat → Int)
    (used_params : List PgNode) (econtext : ExprContext) :
    Except String (List Nat) :=
  let nparams := used_params.length
  let offset := STROMALIGN (kparambuf_poffset_ofs + 4 * nparams)
  let str0 : List Nat := List.replicate offset 0
  match kparambufLoop get_typlen econtext used_params str0 0 with
  | .error e => .error e
  | .ok (str, _) =>
    .ok (writeU32At (writeU32At str 0 str.length) 4 nparams)

/-! ## GPU sort kernel pipeline (src/src/cuda_gpusort.h)

The result-index array kresults->results[0 .. nitems) is modelled as a
list of item positions; gpusort_keycomp is the user-supplied three-way
comparator over two positions (keycomp : Nat → Nat → Int, swap happens
when the result is positive).  Within one network round every worker's
index pair is disjoint from every other worker's (claim C8), so the
parallel round is modelled as a sequential fold over worker ids.  The
block size L is the common power-of-two block size gpusort_main
negotiates from the hardware; it enters the model as a parameter. -/

/-- Compare-and-swap of two result-array slots: swap when the comparator
says the first sorts after the second. -/
def keycompSwap (keycomp : Nat → Nat → Int) (l : List Nat)
    (idx0 idx1 : Nat) : List Nat :=
  let pos0 := l.getD idx0 0
  let pos1 := l.getD idx1 0
  if 0 < keycomp pos0 pos1 then (l.set idx0 pos1).set idx1 pos0 else l

/-- Reversing partner index of the bitonic network:
the source computes (idx0 & ~unitMask) | (~idx0 & unitMask) on C ints;
for the non-negative values involved, x & ~m = x ^^^ (x &&& m) and
~x & m = (x ^^^ m) &&& m. -/
def bitonic_reverse_idx (unitMask idx0 : Nat) : Nat :=
  (idx0 ^^^ (idx0 &&& unitMask)) ||| ((idx0 ^^^ unitMask) &&& unitMask)

/-- idx0 of gpusort_bitonic_step / gpusort_bitonic_local for worker g:
(g / halfUnitSize) * unitsz + g % halfUnitSize. -/
def bitonic_idx0 (unitsz g : Nat) : Nat :=
  g / (unitsz / 2) * unitsz + g % (unitsz / 2)

/-- idx1 of gpusort_bitonic_step / gpusort_bitonic_local. -/
def bitonic_idx1 (unitsz : Nat) (reversing : Bool) (idx0 : Nat) : Nat :=
  if reversing then bitonic_reverse_idx (unitsz - 1) idx0
  else idx0 + unitsz / 2

/-! ### gpusort_bitonic_local (src/src/cuda_gpusort.h:261-322) -/

/-- One shared-memory round of gpusort_bitonic_local: all L workers of
the block perform their guarded compare-and-swap at distance unitSize
(reversing when unitSize equals the current blockSize). -/
def gpusort_bitonic_local_round (keycomp : Nat → Nat → Int)
    (L part_size blockSize unitSize : Nat) (localIdx : List Nat) :
    List Nat :=
  (List.range L).foldl
    (fun acc lid =>
      let reversing := unitSize = blockSize
      let idx0 := bitonic_idx0 unitSize lid
      let idx1 := bitonic_idx1 unitSize reversing idx0
      if idx1 < part_size then keycompSwap keycomp acc idx0 idx1 else acc)
    localIdx

/-- Inner loop of gpusort_bitonic_local: unitSize from blockSize down to
2, halving.  Structural fuel (any fuel ≥ log2 blockSize suffices; callers
pass blockSize). -/
def gpusort_bitonic_local_units (keycomp : Nat → Nat → Int)
    (L part_size blockSize : Nat) :
    Nat → Nat → List Nat → List Nat
  | 0, _, l => l
  | fuel + 1, unitSize, l =>
    if 2 ≤ unitSize then
      gpusort_bitonic_local_units keycomp L part_size blockSize fuel
        (unitSize / 2)
        (gpusort_bitonic_local_round keycomp L part_size blockSize unitSize l)
    else l

/-- Outer loop of gpusort_bitonic_local: blockSize from 2 doubling WHILE
blockSize <= part_size — note the loop bound is the (already truncated)
part_size. -/
def gpusort_bitonic_local_blocks (keycomp : Nat → Nat → Int)
    (L part_size : Nat) : Nat → Nat → List Nat → List Nat
  | 0, _, l => l
  | fuel + 1, blockSize, l =>
    if blockSize ≤ part_size then
      gpusort_bitonic_local_blocks keycomp L part_size fuel (2 * blockSize)
        (gpusort_bitonic_local_units keycomp L part_size blockSize
          blockSize blockSize l)
    else l

/-- Raw-memory style write-back of a computed window into the result
array starting at part_base. -/
def writeBackSlice {α : Type} [Inhabited α] (results : List α)
    (part_base : Nat) (vals : List α) : List α :=
  (List.range vals.length).foldl
    (fun acc i => acc.set (part_base + i) (vals.getD i default)) results

/-- gpusort_bitonic_local: per-partition shared-memory bitonic sort.  The
grid (number of partitions) is the one gpusort_main launches:
ceil(((nitems+1)/2) / L) blocks, each covering 2*L result slots.  The
partition is loaded into shared memory, sorted by the nested loops, and
written back. -/
def gpusort_bitonic_local (keycomp : Nat → Nat → Int) (L : Nat)
    (results : List Nat) : List Nat :=
  let nitems := results.length
  let nparts := ((nitems + 1) / 2 + L - 1) / L
  (List.range nparts).foldl
    (fun res p =>
      let part_base := p * (2 * L)
      let part_size := if part_base + 2 * L > nitems
                       then nitems - part_base else 2 * L
      let localIdx := (List.range part_size).map
                        (fun i => res.getD (part_base + i) 0)
      let final := gpusort_bitonic_local_blocks keycomp L part_size
                     (part_size + 1) 2 localIdx
      writeBackSlice res part_base final)
    results

/-! ### gpusort_bitonic_step (src/src/cuda_gpusort.h:331-366) -/

/-- gpusort_bitonic_step: one global-memory compare-and-swap round at
distance unitsz over the whole result array.  The launch covers
ceil(work_size / L) blocks of L threads; threads whose partner index
falls at or beyond nitems do nothing. -/
def gpusort_bitonic_step (keycomp : Nat → Nat → Int) (L : Nat)
    (unitsz : Nat) (reversing : Bool) (results : List Nat) : List Nat :=
  let nitems := results.length
  let work_size := (nitems + unitsz - 1) / unitsz * unitsz / 2
  let nthreads := (work_size + L - 1) / L * L
  (List.range nthreads).foldl
    (fun res g =>
      let idx0 := bitonic_idx0 unitsz g
      let idx1 := bitonic_idx1 unitsz reversing idx0
      if idx1 ≥ nitems then res else keycompSwap keycomp res idx0 idx1)
    results

/-! ### gpusort_bitonic_merge (src/src/cuda_gpusort.h:374-429)

The merge kernel is modelled generically over the element type of the
shared-memory array (instantiated at Nat for the pipeline, and at tagged
values for the shared-memory provenance analysis of claim C9); val
projects the stored item position out of an element, and shmem is the
initial (uninitialized) content of the 2*L-entry shared-memory buffer. -/

/-- Compare-and-swap on the merge kernel's shared-memory array. -/
def keycompSwapV {α : Type} [Inhabited α] (keycomp : Nat → Nat → Int)
    (val : α → Nat) (l : List α) (idx0 idx1 : Nat) : List α :=
  let pos0 := l.getD idx0 default
  let pos1 := l.getD idx1 default
  if 0 < keycomp (val pos0) (val pos1) then (l.set idx0 pos1).set idx1 pos0
  else l

/-- One round of gpusort_bitonic_merge at distance unitSize (never
reversing). -/
def gpusort_bitonic_merge_round {α : Type} [Inhabited α]
    (keycomp : Nat → Nat → Int) (val : α → Nat)
    (L part_size unitSize : Nat) (localIdx : List α) : List α :=
  (List.range L).foldl
    (fun acc lid =>
      let halfUnitSize := unitSize / 2
      let idx0 := lid / halfUnitSize * unitSize + lid % halfUnitSize
      let idx1 := halfUnitSize + idx0
      if idx1 < part_size then keycompSwapV keycomp val acc idx0 idx1
      else acc)
    localIdx

/-- Unit loop of gpusort_bitonic_merge: unitSize from blockSize (the
UNtruncated 2*L) down to 2, halving; structural fuel as above. -/
def gpusort_bitonic_merge_units {α : Type} [Inhabited α]
    (keycomp : Nat → Nat → Int) (val : α → Nat) (L part_size : Nat) :
    Nat → Nat → List α → List α
  | 0, _, l => l
  | fuel + 1, unitSize, l =>
    if 2 ≤ unitSize then
      gpusort_bitonic_merge_units keycomp val L part_size fuel (unitSize / 2)
        (gpusort_bitonic_merge_round keycomp val L part_size unitSize l)
    else l

/-- Truncated partition size of a merge/local partition. -/
def partSizeAt (L nitems part_base : Nat) : Nat :=
  if part_base + 2 * L > nitems then nitems - part_base else 2 * L

/-- Shared-memory contents of one gpusort_bitonic_merge partition after
the load loop: the load loop copies result entries for positions
i < part_size AND i < 2048; the remaining shared-memory slots keep their
incoming (uninitialized) content. -/
def mergeLoadShmem {α : Type} [Inhabited α] (L nitems part_base : Nat)
    (results : List α) (shmem : List α) : List α :=
  let part_size := partSizeAt L nitems part_base
  let loadN := min part_size 2048
  (List.range loadN).map (fun i => results.getD (part_base + i) default)
  ++ shmem.drop loadN

/-- Values one gpusort_bitonic_merge partition writes back (the write
loop runs for every i < part_size, with no 2048 cap). -/
def gpusort_bitonic_merge_writeback {α : Type} [Inhabited α]
    (keycomp : Nat → Nat → Int) (val : α → Nat) (L nitems part_base : Nat)
    (results : List α) (shmem : List α) : List α :=
  let part_size := partSizeAt L nitems part_base
  (gpusort_bitonic_merge_units keycomp val L part_size (2 * L) (2 * L)
    (mergeLoadShmem L nitems part_base results shmem)).take part_size

/-- One partition (thread block) of gpusort_bitonic_merge: load shared
memory, run the merge network, write the window back. -/
def gpusort_bitonic_merge_part {α : Type} [Inhabited α]
    (keycomp : Nat → Nat → Int) (val : α → Nat) (L nitems part_base : Nat)
    (results : List α) (shmem : List α) : List α :=
  writeBackSlice results part_base
    (gpusort_bitonic_merge_writeback keycomp val L nitems part_base
      results shmem)

/-- gpusort_bitonic_merge: the full kernel over the launched grid of
ceil(((nitems+1)/2) / L) partitions; shmem gives each block's incoming
shared-memory content. -/
def gpusort_bitonic_merge {α : Type} [Inhabited α]
    (keycomp : Nat → Nat → Int) (val : α → Nat) (L : Nat)
    (shmem : Nat → List α) (results : List α) : List α :=
  let nitems := results.length
  let nparts := ((nitems + 1) / 2 + L - 1) / L
  (List.range nparts).foldl
    (fun res p => gpusort_bitonic_merge_part keycomp val L nitems
                    (p * (2 * L)) res (shmem p))
    results

/-! ### gpusort_main (src/src/cuda_gpusort.h:470-706) -/

/-- Modelled from the spec: get_next_log2 lives in a device-common
header outside src/; per its use in gpusort_main ("nhalf is the least
power of two value that is larger than or equal to half of the nitems",
nhalf = 1 << (get_next_log2(nitems+1) - 1)), get_next_log2 x is the
least k with x <= 2^k. -/
def get_next_log2 (x : Nat) : Nat :=
  (((List.range (x + 1)).find? (fun k => x ≤ 2 ^ k)).getD 0)

/-- Inner j-loop of gpusort_main: j from 2*i halving while j > L, each
iteration launching gpusort_bitonic_step with unitsz = 2*j, reversing on
the first iteration (j = 2*i), followed by device-wide synchronization. -/
def gpusort_main_inner (keycomp : Nat → Nat → Int) (L i : Nat) :
    Nat → Nat → List Nat → List Nat
  | 0, _, res => res
  | fuel + 1, j, res =>
    if L < j then
      gpusort_main_inner keycomp L i fuel (j / 2)
        (gpusort_bitonic_step keycomp L (2 * j) (j = 2 * i) res)
    else res

/-- Outer i-loop of gpusort_main: i from L doubling while i < nhalf; each
iteration runs the step rounds then one gpusort_bitonic_merge pass. -/
def gpusort_main_outer (keycomp : Nat → Nat → Int) (L nhalf : Nat)
    (shmem : Nat → List Nat) : Nat → Nat → List Nat → List Nat
  | 0, _, res => res
  | fuel + 1, i, res =>
    if i < nhalf then
      gpusort_main_outer keycomp L nhalf shmem fuel (2 * i)
        (gpusort_bitonic_merge keycomp id L shmem
          (gpusort_main_inner keycomp L i (2 * i + 1) (2 * i) res))
    else res

/-- gpusort_main: the full bitonic pipeline — local sort, then the
doubling-window rounds of global steps and merge passes.  L is the
common power-of-two block size negotiated from the hardware; shmem gives
each merge block's incoming shared-memory content.  The final
gpusort_fixup_pointers pass rewrites column values inside kds_slot and
never touches the result-index array, so it does not appear in the
result-array model. -/
def gpusort_main (keycomp : Nat → Nat → Int) (L : Nat)
    (shmem : Nat → List Nat) (results : List Nat) : List Nat :=
  let nitems := results.length
  let nhalf := 2 ^ (get_next_log2 (nitems + 1) - 1)
  gpusort_main_outer keycomp L nhalf shmem (nhalf + 1) L
    (gpusort_bitonic_local keycomp L results)

/-- Boolean sortedness check of the result array under the three-way
comparator: no adjacent pair is out of order. -/
def sortedChk (keycomp : Nat → Nat → Int) : List Nat → Bool
  | [] => true
  | [_] => true
  | a :: b :: rest => decide (keycomp a b ≤ 0) && sortedChk keycomp (b :: rest)

/-- Sortedness of the result array under the three-way comparator. -/
def sortedByKeycomp (keycomp : Nat → Nat → Int) (l : List Nat) : Prop :=
  sortedChk keycomp l = true

instance (keycomp : Nat → Nat → Int) (l : List Nat) :
    Decidable (sortedByKeycomp keycomp l) :=
  inferInstanceAs (Decidable (sortedChk keycomp l = true))

/-! ## Specification-side definitions for the cached-offset computation
(claim C3) -/

/-- Effective (alignment, length) of each column after the
internal-format override, in catalog order. -/
def effColList (internal_format : Bool) (attrs : List PgAttribute) :
    List (Nat × Int) :=
  attrs.map (fun a => ((effectiveColAttrs internal_format a).2.1,
                       (effectiveColAttrs internal_format a).2.2))

/-- Cached offsets as the (amended) claim words them: each fixed-width
column's cached offset is the running offset rounded up to its
alignment, and the running offset advances by the column's length; the
first variable-width column freezes the cache to -1 (unknown) for
itself and every subsequent column. -/
def specCachedOffsets (attcacheoff : Int) : List (Nat × Int) → List Int
  | [] => []
  | (al, len) :: rest =>
    if len > 0 ∧ attcacheoff > 0 then
      TYPEALIGN_I al attcacheoff
        :: specCachedOffsets (TYPEALIGN_I al attcacheoff + len) rest
    else
      -1 :: rest.map (fun _ => (-1 : Int))

/-! ## Concrete inputs used by the claim evaluations and witnesses -/

/-- Keys of the three-row sort counterexample: key(0)=2, key(1)=3,
key(2)=1. -/
def c1_keys : List Nat := [2, 3, 1]

/-- Three-way key comparator over row positions for c1_keys (a total
preorder comparator: compares the numeric keys). -/
def c1_keycomp (x y : Nat) : Int :=
  (c1_keys.getD x 0 : Int) - (c1_keys.getD y 0 : Int)

/-- Shared-memory initial contents for the three-row run (the merge
kernel is never reached there, so the contents are irrelevant). -/
def c1_shmem : Nat → List Nat := fun _ => List.replicate 64 0

/-- Column metadata of a single 4-byte by-value column. -/
def ex_colmeta : KernColmeta := ⟨true, 4, 4, 1, 24⟩

/-- A sample tuple: 8 bytes of payload, row identity (7,3). -/
def ex_tuple : HeapTupleModel := ⟨8, ⟨7, 3⟩, [1, 2, 3, 4, 5, 6, 7, 8]⟩

/-- An empty 4096-byte row-format chunk with one column, capacity 100. -/
def c2_kds : KernDataStore :=
  ⟨4096, 0, 1, 0, 100, KDS_FORMAT_ROW, false, 0, 0, [ex_colmeta], [], []⟩

/-- The chunk after inserting ex_tuple into c2_kds. -/
def c2_kds' : KernDataStore :=
  match pgstrom_data_store_insert_tuple c2_kds ex_tuple with
  | .ok (_, k) => k
  | .error _ => c2_kds

/-- A chunk already at capacity (nitems = nrooms = 5). -/
def c5_full_kds : KernDataStore :=
  ⟨4096, 0, 1, 5, 5, KDS_FORMAT_ROW, false, 0, 0, [ex_colmeta], [], []⟩

/-- A 64-byte chunk: far too small for ex_tuple's aligned item. -/
def c5_tiny_kds : KernDataStore :=
  ⟨64, 0, 1, 0, 5, KDS_FORMAT_ROW, false, 0, 0, [ex_colmeta], [], []⟩

/-- A 100-byte chunk: the worst-case page estimate always exceeds it. -/
def c4_kds : KernDataStore :=
  ⟨100, 0, 1, 0, 100, KDS_FORMAT_ROW, false, 0, 0, [ex_colmeta], [], []⟩

/-- A one-line page holding a visible 4-byte tuple. -/
def c4_page : PageModel := ⟨false, [⟨true, 4, [9, 9, 9, 9], true⟩]⟩

/-- A tuple descriptor with a single NULLABLE fixed-width int4 column
(attnotnull = false). -/
def c3_tupdesc : TupleDesc :=
  ⟨[⟨true, .alignInt, 4, 1, 23, false⟩], false, 0, -1⟩

/-- Tuple descriptor for the file-mapped chunk creation example. -/
def c6_tupdesc : TupleDesc :=
  ⟨[⟨true, .alignInt, 4, 1, 23, false⟩], false, 99, -1⟩

/-- Parameter list for claim C7: a null constant followed by a non-null
4-byte by-value integer constant with Datum word v. -/
def c7_nodes (v : Nat) : List PgNode :=
  [.constNode ⟨true, 4, 0, []⟩, .constNode ⟨false, 4, v, []⟩]

/-- Catalog oracle used by the parameter-buffer examples (never reached
by Const nodes). -/
def ex_typlen : Nat → Int := fun _ => 0

/-- Expression context with no parameter resolution info. -/
def c10_no_info_ectx : ExprContext := ⟨none⟩

/-- Expression context with a one-entry parameter array (ptype 23,
non-null) and no fetch hook. -/
def c10_one_param_ectx : ExprContext :=
  ⟨some ⟨1, [⟨23, false, 5, []⟩], none⟩⟩

/-- A Param node body whose paramid 7 lies outside [1, numParams]. -/
def c10_bad_pnode : ParamNode := ⟨7, 23⟩

/-- The buffer the C7 scenario produces for the Datum word 0x12345678
(little-endian payload bytes 120, 86, 52, 18 at offset 16). -/
def c7_witness_buf : List Nat :=
  [32, 0, 0, 0, 2, 0, 0, 0, 0, 0, 0, 0, 16, 0, 0, 0,
   120, 86, 52, 18, 0, 0, 0, 0, 0, 0, 0, 0, 0, 0, 0, 0]

/-! ## Helper lemmas: arithmetic characterization of the bitonic index
formulas on power-of-two unit sizes -/

theorem revLow_eq (x k : Nat) :
    (x ^^^ (2 ^ k - 1)) &&& (2 ^ k - 1) = (2 ^ k - 1) ^^^ x % 2 ^ k := by
  apply Nat.eq_of_testBit_eq
  intro i
  simp only [Nat.testBit_and, Nat.testBit_xor, Nat.testBit_two_pow_sub_one,
    Nat.testBit_mod_two_pow]
  by_cases h : i < k <;> simp [h]

theorem bitonic_reverse_idx_eq (k x : Nat) :
    bitonic_reverse_idx (2 ^ k - 1) x
      = x / 2 ^ k * 2 ^ k + ((2 ^ k - 1) ^^^ x % 2 ^ k) := by
  have hm : (2 : Nat) ^ k - 1 < 2 ^ k := by
    have := Nat.pos_pow_of_pos (n := 2) k (by omega)
    omega
  set L := bitonic_reverse_idx (2 ^ k - 1) x with hL
  have hmod : L % 2 ^ k = (2 ^ k - 1) ^^^ x % 2 ^ k := by
    rw [← Nat.and_pow_two_sub_one_eq_mod]
    apply Nat.eq_of_testBit_eq
    intro i
    simp only [hL, bitonic_reverse_idx, Nat.testBit_and, Nat.testBit_or,
      Nat.testBit_xor, Nat.testBit_two_pow_sub_one, Nat.testBit_mod_two_pow]
    by_cases h : i < k <;> simp [h]
  have hdiv : L / 2 ^ k = x / 2 ^ k := by
    rw [← Nat.shiftRight_eq_div_pow, ← Nat.shiftRight_eq_div_pow]
    apply Nat.eq_of_testBit_eq
    intro j
    simp only [Nat.testBit_shiftRight, hL, bitonic_reverse_idx,
      Nat.testBit_or, Nat.testBit_xor, Nat.testBit_and,
      Nat.testBit_two_pow_sub_one, Nat.testBit_mod_two_pow]
    have : ¬ (k + j < k) := by omega
    simp [this]
  calc L = 2 ^ k * (L / 2 ^ k) + L % 2 ^ k := (Nat.div_add_mod _ _).symm
    _ = x / 2 ^ k * 2 ^ k + ((2 ^ k - 1) ^^^ x % 2 ^ k) := by
        rw [hdiv, hmod, Nat.mul_comm]

theorem pow_halves {k : Nat} (hk : 1 ≤ k) : 2 ^ k / 2 = 2 ^ (k - 1) := by
  cases k with
  | zero => omega
  | succ n => rw [Nat.pow_succ, Nat.mul_div_cancel _ (by omega)]; simp

theorem lt_half_pow {k : Nat} (hk : 1 ≤ k) (g : Nat) :
    g % 2 ^ (k - 1) < 2 ^ k :=
  calc g % 2 ^ (k - 1) < 2 ^ (k - 1) :=
        Nat.mod_lt _ (Nat.pos_pow_of_pos _ (by omega))
    _ ≤ 2 ^ k := Nat.pow_le_pow_right (by omega) (by omega)

theorem idx0_decomp {k : Nat} (hk : 1 ≤ k) (g : Nat) :
    bitonic_idx0 (2 ^ k) g = g / 2 ^ (k - 1) * 2 ^ k + g % 2 ^ (k - 1) := by
  rw [bitonic_idx0, pow_halves hk]

theorem idx0_mod {k : Nat} (hk : 1 ≤ k) (g : Nat) :
    bitonic_idx0 (2 ^ k) g % 2 ^ k = g % 2 ^ (k - 1) := by
  rw [idx0_decomp hk, Nat.add_comm, Nat.add_mul_mod_self_right]
  exact Nat.mod_eq_of_lt (lt_half_pow hk g)

theorem idx0_div {k : Nat} (hk : 1 ≤ k) (g : Nat) :
    bitonic_idx0 (2 ^ k) g / 2 ^ k = g / 2 ^ (k - 1) := by
  rw [idx0_decomp hk, Nat.add_comm,
      Nat.add_mul_div_right _ _ (Nat.pos_pow_of_pos _ (by omega)),
      Nat.div_eq_of_lt (lt_half_pow hk g), Nat.zero_add]

theorem idx1_mod {k : Nat} (hk : 1 ≤ k) (rev : Bool) (g : Nat) :
    bitonic_idx1 (2 ^ k) rev (bitonic_idx0 (2 ^ k) g) % 2 ^ k
      = (if rev then (2 ^ k - 1) ^^^ g % 2 ^ (k - 1)
         else g % 2 ^ (k - 1) + 2 ^ (k - 1)) := by
  have hmpos : (0:Nat) < 2 ^ (k-1) := Nat.pos_pow_of_pos _ (by omega)
  have hsum : 2 ^ (k - 1) + 2 ^ (k - 1) = 2 ^ k := by
    have h2 : 2 ^ (k - 1) * 2 = 2 ^ k := by
      rw [← Nat.pow_succ]; congr 1; omega
    omega
  cases rev with
  | false =>
    simp only [bitonic_idx1, Bool.false_eq_true, if_false]
    rw [pow_halves hk, idx0_decomp hk, Nat.add_assoc, Nat.add_comm,
        Nat.add_mul_mod_self_right]
    apply Nat.mod_eq_of_lt
    have := Nat.mod_lt g (y := 2 ^ (k-1)) hmpos
    omega
  | true =>
    simp only [bitonic_idx1, eq_self_iff_true, if_true]
    rw [bitonic_reverse_idx_eq, idx0_mod hk, idx0_div hk,
        Nat.add_comm, Nat.add_mul_mod_self_right]
    apply Nat.mod_eq_of_lt
    exact Nat.xor_lt_two_pow
      (by have := Nat.pos_pow_of_pos (n := 2) k (by omega); omega)
      (lt_half_pow hk g)

theorem idx1_div {k : Nat} (hk : 1 ≤ k) (rev : Bool) (g : Nat) :
    bitonic_idx1 (2 ^ k) rev (bitonic_idx0 (2 ^ k) g) / 2 ^ k
      = g / 2 ^ (k - 1) := by
  have hmpos : (0:Nat) < 2 ^ (k-1) := Nat.pos_pow_of_pos _ (by omega)
  have hppos : (0:Nat) < 2 ^ k := Nat.pos_pow_of_pos _ (by omega)
  cases rev with
  | false =>
    simp only [bitonic_idx1, Bool.false_eq_true, if_false]
    rw [pow_halves hk, idx0_decomp hk, Nat.add_assoc, Nat.add_comm,
        Nat.add_mul_div_right _ _ hppos, Nat.div_eq_of_lt, Nat.zero_add]
    have hsum : 2 ^ (k - 1) + 2 ^ (k - 1) = 2 ^ k := by
      have h2 : 2 ^ (k - 1) * 2 = 2 ^ k := by
        rw [← Nat.pow_succ]; congr 1; omega
      omega
    have := Nat.mod_lt g (y := 2 ^ (k-1)) hmpos
    omega
  | true =>
    simp only [bitonic_idx1, eq_self_iff_true, if_true]
    rw [bitonic_reverse_idx_eq, idx0_mod hk, idx0_div hk, Nat.add_comm,
        Nat.add_mul_div_right _ _ hppos, Nat.div_eq_of_lt, Nat.zero_add]
    exact Nat.xor_lt_two_pow (by omega) (lt_half_pow hk g)

theorem idx1_mod_ge {k : Nat} (hk : 1 ≤ k) (rev : Bool) (g : Nat) :
    2 ^ (k - 1) ≤ bitonic_idx1 (2 ^ k) rev (bitonic_idx0 (2 ^ k) g) % 2 ^ k := by
  rw [idx1_mod hk]
  cases rev with
  | false => simp
  | true =>
    simp only [eq_self_iff_true, if_true]
    apply Nat.testBit_implies_ge
    have hmlt : g % 2 ^ (k - 1) < 2 ^ (k - 1) :=
      Nat.mod_lt _ (Nat.pos_pow_of_pos _ (by omega))
    rw [Nat.testBit_xor, Nat.testBit_two_pow_sub_one,
        Nat.testBit_lt_two_pow hmlt]
    have : k - 1 < k := by omega
    simp [this]

theorem g_recover {k : Nat} {g g' : Nat}
    (hmod : g % 2 ^ (k - 1) = g' % 2 ^ (k - 1))
    (hdiv : g / 2 ^ (k - 1) = g' / 2 ^ (k - 1)) : g = g' := by
  have h1 := Nat.div_add_mod g (2 ^ (k - 1))
  have h2 := Nat.div_add_mod g' (2 ^ (k - 1))
  rw [hdiv, hmod] at h1
  omega

theorem idx0_mod_lt {k : Nat} (hk : 1 ≤ k) (g : Nat) :
    bitonic_idx0 (2 ^ k) g % 2 ^ k < 2 ^ (k - 1) := by
  rw [idx0_mod hk]
  exact Nat.mod_lt _ (Nat.pos_pow_of_pos _ (by omega))

theorem xor_left_cancel {m a b : Nat} (h : m ^^^ a = m ^^^ b) : a = b := by
  have := congrArg (fun t => m ^^^ t) h
  simpa [← Nat.xor_assoc, Nat.xor_self, Nat.zero_xor] using this

/-- Claim C8: for every power-of-two unit size unitsz >= 2, every
reversing flag, and every pair of distinct worker global ids g and g',
the index pairs (idx0, idx1) computed by the gpusort_bitonic_step
formulas are disjoint: the pair of worker g shares no element with the
pair of worker g'. -/
theorem C8_gpusort_bitonic_step_index_pairs_disjoint
    (unitsz k : Nat) (hu : unitsz = 2 ^ k) (hk : 1 ≤ k) (rev : Bool)
    (g g' : Nat) (hne : g ≠ g') :
    bitonic_idx0 unitsz g ≠ bitonic_idx0 unitsz g' ∧
    bitonic_idx0 unitsz g ≠ bitonic_idx1 unitsz rev (bitonic_idx0 unitsz g') ∧
    bitonic_idx1 unitsz rev (bitonic_idx0 unitsz g) ≠ bitonic_idx0 unitsz g' ∧
    bitonic_idx1 unitsz rev (bitonic_idx0 unitsz g)
      ≠ bitonic_idx1 unitsz rev (bitonic_idx0 unitsz g') := by
  subst hu
  refine ⟨?_, ?_, ?_, ?_⟩
  · intro h
    apply hne
    exact g_recover
      (by rw [← idx0_mod hk g, ← idx0_mod hk g', h])
      (by rw [← idx0_div hk g, ← idx0_div hk g', h])
  · intro h
    have h1 := idx0_mod_lt hk g
    have h2 := idx1_mod_ge hk rev g'
    rw [h] at h1
    omega
  · intro h
    have h1 := idx0_mod_lt hk g'
    have h2 := idx1_mod_ge hk rev g
    rw [← h] at h1
    omega
  · intro h
    apply hne
    have hmod : bitonic_idx1 (2 ^ k) rev (bitonic_idx0 (2 ^ k) g) % 2 ^ k
        = bitonic_idx1 (2 ^ k) rev (bitonic_idx0 (2 ^ k) g') % 2 ^ k := by
      rw [h]
    have hdiv : g / 2 ^ (k - 1) = g' / 2 ^ (k - 1) := by
      rw [← idx1_div hk rev g, ← idx1_div hk rev g', h]
    rw [idx1_mod hk, idx1_mod hk] at hmod
    cases rev with
    | false =>
      simp only [Bool.false_eq_true, if_false] at hmod
      exact g_recover (by omega) hdiv
    | true =>
      simp only [eq_self_iff_true, if_true] at hmod
      exact g_recover (xor_left_cancel hmod) hdiv

/-- Witness for claim C8 at unitsz = 4, reversing, workers 0 and 1:
the pairs are (0,3) and (1,2). -/
theorem C8_witness :
    (4 : Nat) = 2 ^ 2 ∧ (1 : Nat) ≤ 2 ∧ (0 : Nat) ≠ 1 ∧
    (bitonic_idx0 4 0 ≠ bitonic_idx0 4 1 ∧
     bitonic_idx0 4 0 ≠ bitonic_idx1 4 true (bitonic_idx0 4 1) ∧
     bitonic_idx1 4 true (bitonic_idx0 4 0) ≠ bitonic_idx0 4 1 ∧
     bitonic_idx1 4 true (bitonic_idx0 4 0)
       ≠ bitonic_idx1 4 true (bitonic_idx0 4 1)) :=
  ⟨by decide, by decide, by decide,
   C8_gpusort_bitonic_step_index_pairs_disjoint 4 2 (by decide) (by decide)
     true 0 1 (by decide)⟩

/-! ## Helper lemmas: permutation and slice invariants of the merge
network's shared-memory phase -/


/-- moving the k-th element to the front is a permutation. -/
theorem getD_cons_set_perm {α : Type} (d : α) :
    ∀ (xs : List α) (k : Nat) (x : α), k < xs.length →
      List.Perm (xs.getD k d :: xs.set k x) (x :: xs) := by
  intro xs
  induction xs with
  | nil => intro k x h; simp at h
  | cons y ys ih =>
    intro k x h
    cases k with
    | zero =>
      simp only [List.getD_cons_zero, List.set_cons_zero]
      exact List.Perm.swap x y ys
    | succ k =>
      simp only [List.getD_cons_succ, List.set_cons_succ]
      exact ((List.Perm.swap y (ys.getD k d) (ys.set k x)).trans
        ((ih k x (by simpa using h)).cons y)).trans (List.Perm.swap x y ys)


/-- writing l[j] at i and l[i] at j is a permutation. -/
theorem set_set_swap_perm {α : Type} (d : α) :
    ∀ (l : List α) (i j : Nat), i < j → j < l.length →
      List.Perm ((l.set i (l.getD j d)).set j (l.getD i d)) l := by
  intro l
  induction l with
  | nil => intro i j h1 h2; simp at h2
  | cons y ys ih =>
    intro i j h1 h2
    cases i with
    | zero =>
      cases j with
      | zero => omega
      | succ j =>
        simp only [List.getD_cons_succ, List.getD_cons_zero,
          List.set_cons_zero, List.set_cons_succ]
        exact getD_cons_set_perm d ys j y (by simpa using h2)
    | succ i =>
      cases j with
      | zero => omega
      | succ j =>
        simp only [List.getD_cons_succ, List.set_cons_succ]
        exact (ih i j (by omega) (by simpa using h2)).cons y


/-- slice invariant preserved by one guarded compare-and-swap of the
merge network. -/
theorem keycompSwapV_slice {α : Type} [Inhabited α]
    (keycomp : Nat → Nat → Int) (val : α → Nat) (ps : Nat) (l : List α)
    (i j : Nat) (hij : i < j) (hj : j < ps) (hps : ps ≤ l.length) :
    List.Perm ((keycompSwapV keycomp val l i j).take ps) (l.take ps) ∧
    (keycompSwapV keycomp val l i j).drop ps = l.drop ps ∧
    (keycompSwapV keycomp val l i j).length = l.length := by
  have hform : keycompSwapV keycomp val l i j
      = if 0 < keycomp (val (l.getD i default)) (val (l.getD j default))
        then (l.set i (l.getD j default)).set j (l.getD i default) else l :=
    rfl
  rw [hform]
  by_cases hswap : 0 < keycomp (val (l.getD i default)) (val (l.getD j default))
  case neg =>
    rw [if_neg hswap]
    exact ⟨List.Perm.refl _, rfl, rfl⟩
  case pos =>
    rw [if_pos hswap]
    refine ⟨?_, ?_, by simp⟩
    · rw [List.set_take, List.set_take]
      have hgi : (l.take ps).getD i default = l.getD i default := by
        simp only [List.getD_eq_getElem?_getD]
        rw [List.getElem?_take_of_lt (by omega)]
      have hgj : (l.take ps).getD j default = l.getD j default := by
        simp only [List.getD_eq_getElem?_getD]
        rw [List.getElem?_take_of_lt hj]
      rw [← hgi, ← hgj]
      exact set_set_swap_perm default (l.take ps) i j hij
        (by rw [List.length_take]; omega)
    · rw [List.drop_set, List.drop_set, if_pos (by omega), if_pos (by omega)]

/-- slice invariant preserved by one full round of the merge network. -/
theorem merge_round_slice {α : Type} [Inhabited α]
    (keycomp : Nat → Nat → Int) (val : α → Nat) (L ps unitSize : Nat)
    (hu : 2 ≤ unitSize) (l : List α) (hps : ps ≤ l.length) :
    List.Perm ((gpusort_bitonic_merge_round keycomp val L ps unitSize l).take ps)
      (l.take ps) ∧
    (gpusort_bitonic_merge_round keycomp val L ps unitSize l).drop ps
      = l.drop ps ∧
    (gpusort_bitonic_merge_round keycomp val L ps unitSize l).length
      = l.length := by
  unfold gpusort_bitonic_merge_round
  induction (List.range L) generalizing l with
  | nil => exact ⟨List.Perm.refl _, rfl, rfl⟩
  | cons lid rest ih =>
    simp only [List.foldl_cons]
    by_cases hg : unitSize / 2 + (lid / (unitSize / 2) * unitSize
        + lid % (unitSize / 2)) < ps
    · simp only [hg, if_true]
      have hij : lid / (unitSize / 2) * unitSize + lid % (unitSize / 2)
          < unitSize / 2 + (lid / (unitSize / 2) * unitSize
            + lid % (unitSize / 2)) := by omega
      have step := keycompSwapV_slice keycomp val ps l _ _ hij hg hps
      have rest' := ih (keycompSwapV keycomp val l _ _)
        (by rw [step.2.2]; exact hps)
      exact ⟨rest'.1.trans step.1, rest'.2.1.trans step.2.1,
             rest'.2.2.trans step.2.2⟩
    · simp only [hg, if_false]
      exact ih l hps



/-- slice invariant preserved by the whole unit loop of the merge
network. -/
theorem merge_units_slice {α : Type} [Inhabited α]
    (keycomp : Nat → Nat → Int) (val : α → Nat) (L ps : Nat) :
    ∀ (fuel unitSize : Nat) (l : List α), ps ≤ l.length →
    List.Perm
      ((gpusort_bitonic_merge_units keycomp val L ps fuel unitSize l).take ps)
      (l.take ps) ∧
    (gpusort_bitonic_merge_units keycomp val L ps fuel unitSize l).drop ps
      = l.drop ps ∧
    (gpusort_bitonic_merge_units keycomp val L ps fuel unitSize l).length
      = l.length := by
  intro fuel
  induction fuel with
  | zero => intro u l h; exact ⟨List.Perm.refl _, rfl, rfl⟩
  | succ fuel ih =>
    intro u l h
    show List.Perm ((if 2 ≤ u then _ else l).take ps) _ ∧ _
    by_cases hu : 2 ≤ u
    · rw [gpusort_bitonic_merge_units, if_pos hu]
      have step := merge_round_slice keycomp val L ps u hu l h
      have rest := ih (u / 2)
        (gpusort_bitonic_merge_round keycomp val L ps u l)
        (by rw [step.2.2]; exact h)
      exact ⟨rest.1.trans step.1, rest.2.1.trans step.2.1,
             rest.2.2.trans step.2.2⟩
    · rw [gpusort_bitonic_merge_units, if_neg hu]
      exact ⟨List.Perm.refl _, rfl, rfl⟩



theorem partSizeAt_le (L n b : Nat) : partSizeAt L n b ≤ 2 * L := by
  unfold partSizeAt
  split <;> omega

theorem partSizeAt_base (L n b : Nat) {i : Nat}
    (hi : i < partSizeAt L n b) : b + i < n := by
  unfold partSizeAt at hi
  by_cases h : b + 2 * L > n
  · rw [if_pos h] at hi; omega
  · rw [if_neg h] at hi; omega

theorem mergeLoadShmem_length {α : Type} [Inhabited α]
    (L nitems part_base : Nat) (results shmem : List α)
    (hsh : shmem.length = 2 * L) :
    (mergeLoadShmem L nitems part_base results shmem).length = 2 * L := by
  unfold mergeLoadShmem
  have h1 := partSizeAt_le L nitems part_base
  simp only [List.length_append, List.length_map, List.length_range,
    List.length_drop, hsh]
  omega

theorem mergeLoadShmem_take {α : Type} [Inhabited α]
    (L n b : Nat) (results shmem : List α) :
    (mergeLoadShmem L n b results shmem).take (partSizeAt L n b)
      = (List.range (min (partSizeAt L n b) 2048)).map
          (fun i => results.getD (b + i) default)
        ++ (shmem.drop (min (partSizeAt L n b) 2048)).take
             (partSizeAt L n b - min (partSizeAt L n b) 2048) := by
  unfold mergeLoadShmem
  rw [List.take_append_eq_append_take]
  congr 1
  · exact List.take_of_length_le
      (by rw [List.length_map, List.length_range]; omega)
  · rw [List.length_map, List.length_range]

/-- Claim C9: in gpusort_bitonic_merge the shared-memory load loop is
capped at 2048 entries per partition while the write-back loop is not.
Provenance is modelled by tagging: result-array entries carry tag true
("loaded from this partition"), the incoming (uninitialized) shared
memory carries tag false ("never loaded").  For every partition whose
effective size (2 x local work-group size, truncated at nitems) is at
most 2048, every entry written back is a loaded one; for any partition
size exceeding 2048, written-back entries from never-loaded
shared-memory positions survive — exactly part_size - 2048 of them,
whatever the comparator decides. -/
theorem C9_gpusort_bitonic_merge_shmem_cap
    (keycomp : Nat → Nat → Int) (L nitems part_base : Nat)
    (results shmem : List (Nat × Bool))
    (hn : results.length = nitems)
    (hsh : shmem.length = 2 * L)
    (hres : ∀ x ∈ results, x.2 = true)
    (hgarbage : ∀ x ∈ shmem, x.2 = false) :
    (partSizeAt L nitems part_base ≤ 2048 →
      ∀ x ∈ gpusort_bitonic_merge_writeback keycomp Prod.fst L nitems
              part_base results shmem, x.2 = true) ∧
    (2048 < partSizeAt L nitems part_base →
      (gpusort_bitonic_merge_writeback keycomp Prod.fst L nitems part_base
          results shmem).countP (fun x => !x.2)
        = partSizeAt L nitems part_base - 2048 ∧
      0 < (gpusort_bitonic_merge_writeback keycomp Prod.fst L nitems
          part_base results shmem).countP (fun x => !x.2)) := by
  have hps2L : partSizeAt L nitems part_base ≤ 2 * L :=
    partSizeAt_le L nitems part_base
  have hlen : (mergeLoadShmem L nitems part_base results shmem).length
      = 2 * L :=
    mergeLoadShmem_length L nitems part_base results shmem hsh
  have hslice := merge_units_slice keycomp Prod.fst L
    (partSizeAt L nitems part_base) (2 * L) (2 * L)
    (mergeLoadShmem L nitems part_base results shmem) (by omega)
  have hwb : gpusort_bitonic_merge_writeback keycomp Prod.fst L nitems
      part_base results shmem
      = (gpusort_bitonic_merge_units keycomp Prod.fst L
          (partSizeAt L nitems part_base) (2 * L) (2 * L)
          (mergeLoadShmem L nitems part_base results shmem)).take
          (partSizeAt L nitems part_base) := rfl
  have htake := mergeLoadShmem_take L nitems part_base results shmem
  have hloadmem : ∀ x ∈ (List.range (min (partSizeAt L nitems part_base)
      2048)).map (fun i => results.getD (part_base + i) default),
      x.2 = true := by
    intro x hx
    rcases List.mem_map.mp hx with ⟨i, hi, hxi⟩
    have hilt : i < partSizeAt L nitems part_base := by
      have := List.mem_range.mp hi; omega
    have hbase : part_base + i < results.length := by
      rw [hn]; exact partSizeAt_base L nitems part_base hilt
    apply hres
    rw [← hxi]
    have hgd : results.getD (part_base + i) default
        = results.get ⟨part_base + i, hbase⟩ := by
      simp [List.getD_eq_getElem?_getD, List.getElem?_eq_getElem hbase]
    rw [hgd]
    exact List.get_mem results _ hbase
  refine ⟨?_, ?_⟩
  · -- partitions within the 2048 cap: all write-back entries were loaded
    intro hcap x hx
    rw [hwb] at hx
    have hx2 := (hslice.1.mem_iff).mp hx
    rw [htake] at hx2
    rcases List.mem_append.mp hx2 with hx3 | hx3
    · exact hloadmem x hx3
    · have hz : partSizeAt L nitems part_base
          - min (partSizeAt L nitems part_base) 2048 = 0 := by omega
      rw [hz, List.take_zero] at hx3
      simp at hx3
  · -- partitions beyond the cap: ps - 2048 never-loaded entries survive
    intro hcap
    have hmin : min (partSizeAt L nitems part_base) 2048 = 2048 := by omega
    have hcount : (gpusort_bitonic_merge_writeback keycomp Prod.fst L nitems
        part_base results shmem).countP (fun x => !x.2)
        = ((mergeLoadShmem L nitems part_base results shmem).take
            (partSizeAt L nitems part_base)).countP (fun x => !x.2) := by
      rw [hwb]
      exact hslice.1.countP_eq _
    have hc1 : ((List.range (min (partSizeAt L nitems part_base) 2048)).map
        (fun i => results.getD (part_base + i) default)).countP
          (fun x => !x.2) = 0 := by
      rw [List.countP_eq_zero]
      intro a ha
      have := hloadmem a ha
      simp [this]
    have hc2 : ((shmem.drop (min (partSizeAt L nitems part_base) 2048)).take
        (partSizeAt L nitems part_base
          - min (partSizeAt L nitems part_base) 2048)).countP
        (fun x => !x.2)
        = partSizeAt L nitems part_base - 2048 := by
      have hall : ∀ a ∈ (shmem.drop (min (partSizeAt L nitems part_base)
          2048)).take (partSizeAt L nitems part_base
            - min (partSizeAt L nitems part_base) 2048),
          (fun x => !x.2) a = true := by
        intro a ha
        have ham : a ∈ shmem :=
          List.drop_subset _ _ (List.mem_of_mem_take ha)
        simp [hgarbage a ham]
      have hlen2 : ((shmem.drop (min (partSizeAt L nitems part_base)
          2048)).take (partSizeAt L nitems part_base
            - min (partSizeAt L nitems part_base) 2048)).length
          = partSizeAt L nitems part_base - 2048 := by
        rw [List.length_take, List.length_drop, hsh, hmin]
        omega
      rw [← hlen2]
      exact List.countP_eq_length.mpr hall
    rw [hcount, htake, List.countP_append, hc1, hc2]
    omega


/-! ## Claim C1 -/

/-- Claim C1 (refutation by evaluation): the claim asserts that the full
bitonic pipeline orchestrated by gpusort_main sorts any result-index
array under any total-order comparator.  On the 3-item array [0, 1, 2]
with keys key(0)=2, key(1)=3, key(2)=1 and block size 32, the pipeline
returns the array unchanged, which is not sorted (key 3 precedes key 1),
although a sorted arrangement [2, 0, 1] exists.  Cause:
gpusort_bitonic_local truncates part_size before using it as the
blockSize loop bound, so the network stages with blockSize exceeding the
truncated tail-partition size are skipped entirely. -/
theorem C1_gpusort_main_three_items_left_unsorted :
    gpusort_main c1_keycomp 32 c1_shmem [0, 1, 2] = [0, 1, 2] ∧
    ¬ sortedByKeycomp c1_keycomp (gpusort_main c1_keycomp 32 c1_shmem [0, 1, 2]) ∧
    sortedByKeycomp c1_keycomp [2, 0, 1] :=
  ⟨by decide, by decide, by decide⟩

/-! ## Claim C2 -/

theorem rowIndexWrite_getD (l : List Nat) (i v : Nat) :
    (rowIndexWrite l i v).getD i 0 = v := by
  unfold rowIndexWrite
  have hlen : i < (l ++ List.replicate (i + 1 - l.length) 0).length := by
    simp only [List.length_append, List.length_replicate]
    omega
  simp [List.getD_eq_getElem?_getD, List.getElem?_set_self hlen]

/-- Claim C2: for every row-format chunk with free room and every tuple,
if pgstrom_data_store_insert_tuple returns true for that tuple at
resulting index i (= the old nitems), then fetching index i with
kern_fetch_data_store succeeds and yields byte-identical row length,
row identity, and encoded payload bytes. -/
theorem C2_insert_tuple_fetch_roundtrip
    (kds kds' : KernDataStore) (tuple : HeapTupleModel)
    (hwf : tuple.t_data.length = tuple.t_len)
    (hins : pgstrom_data_store_insert_tuple kds tuple = .ok (true, kds')) :
    kern_fetch_data_store kds' kds.nitems
      = .ok (some (.rowForm tuple.t_len tuple.t_self tuple.t_data)) := by
  simp only [pgstrom_data_store_insert_tuple] at hins
  by_cases h1 : kds.nitems ≥ kds.nrooms
  · rw [if_pos h1] at hins
    simp at hins
  rw [if_neg h1] at hins
  by_cases h2 : kds.format ≠ KDS_FORMAT_ROW
  · rw [if_pos h2] at hins
    simp at hins
  rw [if_neg h2] at hins
  push_neg at h2
  by_cases h3 : KERN_DATA_STORE_BODY_OFS kds.ncols + 4 * (kds.nitems + 1)
      + kds.usage + LONGALIGN (kern_tupitem_htup_ofs + tuple.t_len)
      > kds.length
  · rw [if_pos h3] at hins
    simp at hins
  rw [if_neg h3] at hins
  injection hins with hpair
  injection hpair with hb hk
  subst hk
  simp only [kern_fetch_data_store]
  rw [if_neg (by simp)]
  rw [if_pos (by simpa using h2)]
  rw [rowIndexWrite_getD]
  rw [List.find?_cons_of_pos _ (by simp)]
  simp only [Option.map_some', Option.getD_some]
  congr 1
  congr 1
  rw [← hwf]
  exact congrArg _ (List.take_length tuple.t_data)

/-- Witness for claim C2: inserting ex_tuple into the empty chunk c2_kds
succeeds and fetching index 0 returns its exact contents. -/
theorem C2_witness :
    ex_tuple.t_data.length = ex_tuple.t_len ∧
    pgstrom_data_store_insert_tuple c2_kds ex_tuple = .ok (true, c2_kds') ∧
    kern_fetch_data_store c2_kds' c2_kds.nitems
      = .ok (some (.rowForm ex_tuple.t_len ex_tuple.t_self
                     ex_tuple.t_data)) :=
  ⟨by decide, by decide,
   C2_insert_tuple_fetch_roundtrip c2_kds c2_kds' ex_tuple (by decide)
     (by decide)⟩

/-! ## Claim C4 -/

/-- Claim C4: for every row-format chunk and every page whose worst-case
space estimate (chunk header + per-tuple index entries + per-tuple item
overhead + one page-size safety margin + already-consumed usage) exceeds
the chunk's total length, pgstrom_data_store_insert_block returns the
retry sentinel -1 and leaves the chunk byte-for-byte unmodified. -/
theorem C4_insert_block_precheck_sentinel
    (kds : KernDataStore) (blknum : Nat) (page : PageModel)
    (snapshot : SnapshotModel) (page_prune : Bool)
    (hover : STROMALIGN (kds_colmeta_offset + kds.ncols * sizeof_kern_colmeta)
        + 4 * (kds.nitems + page.items.length)
        + kern_tupitem_htup_ofs * page.items.length + BLCKSZ + kds.usage
        > kds.length) :
    pgstrom_data_store_insert_block kds blknum page snapshot page_prune
      = (-1, kds) := by
  simp only [pgstrom_data_store_insert_block]
  rw [if_pos hover]

/-- Witness for claim C4: a 100-byte chunk and a one-line page — the
estimate (header 48 + index 4 + overhead 12 + BLCKSZ 8192) exceeds 100,
the sentinel is returned and the chunk is untouched. -/
theorem C4_witness :
    (STROMALIGN (kds_colmeta_offset + c4_kds.ncols * sizeof_kern_colmeta)
      + 4 * (c4_kds.nitems + c4_page.items.length)
      + kern_tupitem_htup_ofs * c4_page.items.length + BLCKSZ + c4_kds.usage
      > c4_kds.length) ∧
    pgstrom_data_store_insert_block c4_kds 5 c4_page ⟨false⟩ false
      = (-1, c4_kds) :=
  ⟨by decide,
   C4_insert_block_precheck_sentinel c4_kds 5 c4_page ⟨false⟩ false
     (by decide)⟩

/-! ## Claim C5 -/

/-- Claim C5: for every chunk at capacity (nitems >= nrooms) and every
tuple, pgstrom_data_store_insert_tuple returns false leaving the chunk
unchanged; the same holds (for a row-format chunk) when appending would
make the index-region end plus usage plus the new aligned item size
exceed the chunk length. -/
theorem C5_insert_tuple_failure_leaves_chunk_unchanged
    (kds : KernDataStore) (tuple : HeapTupleModel) :
    (kds.nitems ≥ kds.nrooms →
      pgstrom_data_store_insert_tuple kds tuple = .ok (false, kds)) ∧
    (kds.format = KDS_FORMAT_ROW →
      KERN_DATA_STORE_BODY_OFS kds.ncols + 4 * (kds.nitems + 1) + kds.usage
        + LONGALIGN (kern_tupitem_htup_ofs + tuple.t_len) > kds.length →
      pgstrom_data_store_insert_tuple kds tuple = .ok (false, kds)) := by
  constructor
  · intro h1
    simp only [pgstrom_data_store_insert_tuple]
    rw [if_pos h1]
  · intro hfmt hover
    simp only [pgstrom_data_store_insert_tuple]
    by_cases h1 : kds.nitems ≥ kds.nrooms
    · rw [if_pos h1]
    · rw [if_neg h1, if_neg (by simp [hfmt]), if_pos hover]

/-- Witness for claim C5: a chunk at capacity (5 of 5 items) rejects
ex_tuple unchanged, and a 64-byte chunk rejects it for lack of space. -/
theorem C5_witness :
    (c5_full_kds.nitems ≥ c5_full_kds.nrooms ∧
     pgstrom_data_store_insert_tuple c5_full_kds ex_tuple
       = .ok (false, c5_full_kds)) ∧
    (KERN_DATA_STORE_BODY_OFS c5_tiny_kds.ncols + 4 * (c5_tiny_kds.nitems + 1)
       + c5_tiny_kds.usage
       + LONGALIGN (kern_tupitem_htup_ofs + ex_tuple.t_len)
       > c5_tiny_kds.length ∧
     pgstrom_data_store_insert_tuple c5_tiny_kds ex_tuple
       = .ok (false, c5_tiny_kds)) :=
  ⟨⟨by decide,
    (C5_insert_tuple_failure_leaves_chunk_unchanged c5_full_kds ex_tuple).1
      (by decide)⟩,
   ⟨by decide,
    (C5_insert_tuple_failure_leaves_chunk_unchanged c5_tiny_kds ex_tuple).2
      (by decide) (by decide)⟩⟩

/-! ## Claim C3 -/

theorem effectiveColAttrs_align_pos (internal_format : Bool)
    (a : PgAttribute) : 1 ≤ (effectiveColAttrs internal_format a).2.1 := by
  unfold effectiveColAttrs
  split
  · decide
  · cases a.attalign <;> simp [typealign_get_width]

theorem typealignI_pos {a : Nat} {x : Int} (ha : 1 ≤ a) (hx : 0 < x) :
    0 < TYPEALIGN_I a x := by
  unfold TYPEALIGN_I
  have h1 : 1 ≤ (x + (a : Int) - 1) / (a : Int) := by
    rw [Int.le_ediv_iff_mul_le (by omega)]
    omega
  have h2 : (1 : Int) ≤ (a : Int) := by omega
  calc (0 : Int) < 1 * 1 := by omega
    _ ≤ (x + (a : Int) - 1) / (a : Int) * (a : Int) :=
        mul_le_mul h1 h2 (by omega) (by omega)

theorem initColmetaStep_fixed (internal_format : Bool) (a : PgAttribute)
    {start : Int} (hstart : 0 < start)
    (hlen : (effectiveColAttrs internal_format a).2.2 > 0) :
    initColmetaStep internal_format start a
      = (⟨(effectiveColAttrs internal_format a).1,
          (effectiveColAttrs internal_format a).2.1,
          (effectiveColAttrs internal_format a).2.2,
          a.attnum,
          TYPEALIGN_I (effectiveColAttrs internal_format a).2.1 start⟩,
         TYPEALIGN_I (effectiveColAttrs internal_format a).2.1 start
           + (effectiveColAttrs internal_format a).2.2) := by
  have hc := typealignI_pos (effectiveColAttrs_align_pos internal_format a)
    hstart
  simp only [initColmetaStep]
  split_ifs with h1 h2 h3 <;> first | rfl | (exfalso; omega)

theorem initColmetaStep_var (internal_format : Bool) (a : PgAttribute)
    {start : Int} (hstart : 0 < start)
    (hlen : ¬ (effectiveColAttrs internal_format a).2.2 > 0) :
    initColmetaStep internal_format start a
      = (⟨(effectiveColAttrs internal_format a).1,
          (effectiveColAttrs internal_format a).2.1,
          (effectiveColAttrs internal_format a).2.2,
          a.attnum, -1⟩, -1) := by
  simp only [initColmetaStep]
  split_ifs with h1 h2 h3 <;> first | rfl | (exfalso; omega)

theorem initColmetaStep_dead (internal_format : Bool) (a : PgAttribute) :
    initColmetaStep internal_format (-1) a
      = (⟨(effectiveColAttrs internal_format a).1,
          (effectiveColAttrs internal_format a).2.1,
          (effectiveColAttrs internal_format a).2.2,
          a.attnum, -1⟩, -1) := by
  simp only [initColmetaStep]
  split_ifs with h1 h2 <;> first | rfl | (exfalso; omega)

theorem initColmetaList_frozen (internal_format : Bool) :
    ∀ (attrs : List PgAttribute),
      (initColmetaList internal_format (-1) attrs).map (·.attcacheoff)
        = attrs.map (fun _ => (-1 : Int)) := by
  intro attrs
  induction attrs with
  | nil => rfl
  | cons a rest ih =>
    simp only [initColmetaList, initColmetaStep_dead, List.map_cons]
    exact congrArg _ ih

theorem initColmetaList_cacheoff (internal_format : Bool) :
    ∀ (attrs : List PgAttribute) (start : Int), 0 < start →
      (initColmetaList internal_format start attrs).map (·.attcacheoff)
        = specCachedOffsets start (effColList internal_format attrs) := by
  intro attrs
  induction attrs with
  | nil => intro start h; rfl
  | cons a rest ih =>
    intro start hstart
    by_cases hlen : (effectiveColAttrs internal_format a).2.2 > 0
    · have hc := typealignI_pos (effectiveColAttrs_align_pos internal_format a)
        hstart
      simp only [initColmetaList, initColmetaStep_fixed internal_format a
        hstart hlen, effColList, List.map_cons, specCachedOffsets]
      rw [if_pos (And.intro hlen hstart)]
      exact congrArg _ (ih _ (by omega))
    · simp only [initColmetaList, initColmetaStep_var internal_format a
        hstart hlen, effColList, List.map_cons, specCachedOffsets]
      rw [if_neg (fun hand => hlen hand.1)]
      refine congrArg _ ?_
      rw [initColmetaList_frozen internal_format rest, List.map_map]
      rfl

/-- Claim C3 counterexample: the claim as stated says the cache becomes
unknown (-1) for the first column that is variable-width OR NULLABLE.
c3_tupdesc's only column is a nullable fixed-width int4
(attnotnull = false), yet initialization gives it the valid cached
offset 24 (= MAXALIGN of the 23-byte heap-tuple header), not -1:
init_kern_data_store never reads attnotnull. -/
theorem C3_counterexample_nullable_column_keeps_offset :
    (c3_tupdesc.attrs.getD 0 default).attnotnull = false ∧
    ((init_kern_data_store blankKds c3_tupdesc 4096 KDS_FORMAT_ROW 100
        false).colmeta.getD 0 default).attcacheoff = 24 :=
  ⟨by decide, by decide⟩

/-- Claim C3 (amended): for every column-descriptor list, chunk
initialization computes the per-column cached byte offsets exactly as
specCachedOffsets does — starting after the fixed row header (plus an
optional OID slot, MAXALIGN-rounded), each fixed-width column's cached
offset is the running offset rounded up to its alignment and the
running offset advances by its length; the cache becomes unknown (-1)
for the first column that is variable-width and for all subsequent
columns (nullability does not invalidate the cache). -/
theorem C3_init_attcacheoff_characterization (kds0 : KernDataStore)
    (tupdesc : TupleDesc) (length : Nat) (format : Nat) (nrooms : Nat)
    (internal_format : Bool) :
    (init_kern_data_store kds0 tupdesc length format nrooms
        internal_format).colmeta.map (·.attcacheoff)
      = specCachedOffsets (initAttcacheoff tupdesc.tdhasoid)
          (effColList internal_format tupdesc.attrs) := by
  simp only [init_kern_data_store]
  apply initColmetaList_cacheoff
  unfold initAttcacheoff
  cases tupdesc.tdhasoid <;> decide

/-! ## Claims C7 and C10: byte-level parameter-buffer lemmas -/



theorem getD_append_left {l t : List Nat} {i : Nat} (h : i < l.length) :
    (l ++ t).getD i 0 = l.getD i 0 := by
  simp only [List.getD_eq_getElem?_getD]
  rw [List.getElem?_append_left h]

theorem readU32At_append {l t : List Nat} {p : Nat} (h : p + 4 ≤ l.length) :
    readU32At (l ++ t) p = readU32At l p := by
  unfold readU32At
  rw [getD_append_left (by omega), getD_append_left (by omega),
      getD_append_left (by omega), getD_append_left (by omega)]

theorem readU32At_pad {l : List Nat} {p : Nat} (h : p + 4 ≤ l.length) :
    readU32At (stromalignPad l) p = readU32At l p :=
  readU32At_append h

theorem getD_set_ne {l : List Nat} {i j : Nat} (h : i ≠ j) {v : Nat} :
    (l.set i v).getD j 0 = l.getD j 0 := by
  simp only [List.getD_eq_getElem?_getD]
  rw [List.getElem?_set_ne h]

theorem writeU32At_length (l : List Nat) (p v : Nat) :
    (writeU32At l p v).length = l.length := by
  simp [writeU32At]

theorem stromalignPad_length_ge (l : List Nat) :
    l.length ≤ (stromalignPad l).length := by
  simp [stromalignPad]

theorem readU32At_writeU32At_disjoint {l : List Nat} {p q v : Nat}
    (h : p + 4 ≤ q ∨ q + 4 ≤ p) :
    readU32At (writeU32At l q v) p = readU32At l p := by
  unfold readU32At writeU32At
  rw [getD_set_ne (by omega), getD_set_ne (by omega), getD_set_ne (by omega),
      getD_set_ne (by omega)]
  rw [getD_set_ne (by omega), getD_set_ne (by omega), getD_set_ne (by omega),
      getD_set_ne (by omega)]
  rw [getD_set_ne (by omega), getD_set_ne (by omega), getD_set_ne (by omega),
      getD_set_ne (by omega)]
  rw [getD_set_ne (by omega), getD_set_ne (by omega), getD_set_ne (by omega),
      getD_set_ne (by omega)]

theorem readU32At_replicate_zero (n p : Nat) :
    readU32At (List.replicate n 0) p = 0 := by
  have h : ∀ i, (List.replicate n (0 : Nat)).getD i 0 = 0 := by
    intro i
    simp only [List.getD_eq_getElem?_getD, List.getElem?_replicate]
    split <;> rfl
  unfold readU32At
  rw [h, h, h, h]



theorem appendDatumBytes_len (l : List Nat) (t : Int) (v : Nat)
    (b : List Nat) : l.length ≤ (appendDatumBytes l t v b).length := by
  unfold appendDatumBytes
  split <;> simp

theorem readU32At_appendDatumBytes {l : List Nat} {p : Nat} (t : Int)
    (v : Nat) (b : List Nat) (h : p + 4 ≤ l.length) :
    readU32At (appendDatumBytes l t v b) p = readU32At l p := by
  unfold appendDatumBytes
  split <;> exact readU32At_append h

theorem kparambufStep_ok_inv {get_typlen : Nat → Int} {ecxt : ExprContext}
    {node : PgNode} {str : List Nat} {index : Nat}
    {st' : List Nat × Nat}
    (h : kparambufStep get_typlen ecxt node str index = .ok st') :
    st'.2 = index + 1 ∧ str.length ≤ st'.1.length ∧
    ∀ p, p + 4 ≤ str.length →
      (p + 4 ≤ kparambuf_poffset_ofs + 4 * index ∨
       kparambuf_poffset_ofs + 4 * index + 4 ≤ p) →
      readU32At st'.1 p = readU32At str p := by
  cases node with
  | constNode con =>
    simp only [kparambufStep] at h
    by_cases hnull : con.constisnull
    · rw [if_pos hnull] at h
      injection h with h
      subst h
      refine ⟨rfl, ?_, ?_⟩
      · rw [← writeU32At_length str (kparambuf_poffset_ofs + 4 * index) 0]
        exact stromalignPad_length_ge _
      · intro p hp hd
        rw [readU32At_pad (by rw [writeU32At_length]; omega),
            readU32At_writeU32At_disjoint (by omega)]
    · rw [if_neg hnull] at h
      injection h with h
      subst h
      refine ⟨rfl, ?_, ?_⟩
      · calc str.length
            = (writeU32At str (kparambuf_poffset_ofs + 4 * index)
                str.length).length := (writeU32At_length _ _ _).symm
          _ ≤ (appendDatumBytes (writeU32At str (kparambuf_poffset_ofs
                + 4 * index) str.length) con.constlen con.constvalue
                con.varlenaBytes).length := appendDatumBytes_len _ _ _ _
          _ ≤ _ := stromalignPad_length_ge _
      · intro p hp hd
        rw [readU32At_pad, readU32At_appendDatumBytes,
            readU32At_writeU32At_disjoint (by omega)]
        · rw [writeU32At_length]; omega
        · calc p + 4 ≤ str.length := hp
            _ = (writeU32At str (kparambuf_poffset_ofs + 4 * index)
                  str.length).length := (writeU32At_length _ _ _).symm
            _ ≤ _ := appendDatumBytes_len _ _ _ _
  | paramNode param =>
    cases hinfo : ecxt.ecxt_param_list_info with
    | none =>
      simp only [kparambufStep, hinfo] at h
      injection h with h
      subst h
      exact ⟨rfl, stromalignPad_length_ge _,
             fun p hp _ => readU32At_pad hp⟩
    | some info =>
      simp only [kparambufStep, hinfo] at h
      by_cases hrange : param.paramid > 0 ∧ param.paramid ≤ info.numParams
      · rw [if_pos hrange] at h
        set prm := match info.paramFetch with
          | some hook =>
            if (info.params.getD (param.paramid - 1).toNat default).ptype = 0
            then hook param.paramid
            else info.params.getD (param.paramid - 1).toNat default
          | none => info.params.getD (param.paramid - 1).toNat default
          with hprm
        by_cases hpt : prm.ptype = 0
        · rw [if_pos hpt] at h
          injection h with h
          subst h
          refine ⟨rfl, by rw [writeU32At_length], ?_⟩
          intro p hp hd
          exact readU32At_writeU32At_disjoint (by omega)
        · rw [if_neg hpt] at h
          by_cases hmm : prm.ptype ≠ param.paramtype
          · rw [if_pos hmm] at h
            exact absurd h (by simp)
          · rw [if_neg hmm] at h
            by_cases hnull : prm.isnull
            · rw [if_pos hnull] at h
              injection h with h
              subst h
              refine ⟨rfl, ?_, ?_⟩
              · rw [← writeU32At_length str
                  (kparambuf_poffset_ofs + 4 * index) 0]
                exact stromalignPad_length_ge _
              · intro p hp hd
                rw [readU32At_pad (by rw [writeU32At_length]; omega),
                    readU32At_writeU32At_disjoint (by omega)]
            · rw [if_neg hnull] at h
              by_cases htl : get_typlen prm.ptype = 0
              · rw [if_pos htl] at h
                exact absurd h (by simp)
              · rw [if_neg htl] at h
                injection h with h
                subst h
                refine ⟨rfl, ?_, ?_⟩
                · calc str.length
                      ≤ (appendDatumBytes str (get_typlen prm.ptype)
                          prm.value prm.varlenaBytes).length :=
                        appendDatumBytes_len _ _ _ _
                    _ ≤ _ := stromalignPad_length_ge _
                · intro p hp hd
                  rw [readU32At_pad
                        (le_trans hp (appendDatumBytes_len _ _ _ _)),
                      readU32At_appendDatumBytes _ _ _ hp]
      · rw [if_neg hrange] at h
        injection h with h
        subst h
        exact ⟨rfl, stromalignPad_length_ge _,
               fun p hp _ => readU32At_pad hp⟩
  | otherNode =>
    simp only [kparambufStep] at h
    exact absurd h (by simp)



theorem kparambufStep_bad_param (get_typlen : Nat → Int)
    (ecxt : ExprContext) (param : ParamNode) (str : List Nat) (index : Nat)
    (hbad : ∀ info, ecxt.ecxt_param_list_info = some info →
      ¬ (param.paramid > 0 ∧ param.paramid ≤ info.numParams)) :
    kparambufStep get_typlen ecxt (.paramNode param) str index
      = .ok (stromalignPad str, index + 1) := by
  cases hinfo : ecxt.ecxt_param_list_info with
  | none => simp only [kparambufStep, hinfo]
  | some info =>
    simp only [kparambufStep, hinfo]
    rw [if_neg (hbad info hinfo)]

theorem kparambufLoop_append (get_typlen : Nat → Int) (ecxt : ExprContext) :
    ∀ (xs ys : List PgNode) (str : List Nat) (index : Nat),
      kparambufLoop get_typlen ecxt (xs ++ ys) str index
        = match kparambufLoop get_typlen ecxt xs str index with
          | .error e => .error e
          | .ok st => kparambufLoop get_typlen ecxt ys st.1 st.2 := by
  intro xs
  induction xs with
  | nil => intro ys str index; rfl
  | cons x rest ih =>
    intro ys str index
    show kparambufLoop get_typlen ecxt (x :: (rest ++ ys)) str index = _
    simp only [kparambufLoop]
    cases kparambufStep get_typlen ecxt x str index with
    | error e => rfl
    | ok st => exact ih ys st.1 st.2

theorem kparambufLoop_ok_inv {get_typlen : Nat → Int} {ecxt : ExprContext} :
    ∀ {nodes : List PgNode} {str : List Nat} {index : Nat}
      {st' : List Nat × Nat},
      kparambufLoop get_typlen ecxt nodes str index = .ok st' →
      st'.2 = index + nodes.length ∧ str.length ≤ st'.1.length ∧
      ∀ p, p + 4 ≤ str.length →
        (p + 4 ≤ kparambuf_poffset_ofs + 4 * index ∨
         kparambuf_poffset_ofs + 4 * (index + nodes.length) ≤ p) →
        readU32At st'.1 p = readU32At str p := by
  intro nodes
  induction nodes with
  | nil =>
    intro str index st' h
    injection h with h
    subst h
    exact ⟨rfl, le_refl _, fun p hp hd => rfl⟩
  | cons node rest ih =>
    intro str index st' h
    simp only [kparambufLoop] at h
    cases hstep : kparambufStep get_typlen ecxt node str index with
    | error e => rw [hstep] at h; exact absurd h (by simp)
    | ok st1 =>
      rw [hstep] at h
      have s1 := kparambufStep_ok_inv hstep
      have s2 := ih h
      refine ⟨by rw [s2.1, s1.1]; simp only [List.length_cons]; omega,
              le_trans s1.2.1 s2.2.1, ?_⟩
      intro p hp hd
      have hd1 : p + 4 ≤ kparambuf_poffset_ofs + 4 * index ∨
          kparambuf_poffset_ofs + 4 * index + 4 ≤ p := by
        rcases hd with hl | hr
        · exact Or.inl hl
        · right
          have : (4 : Nat) * (index + 1) ≤ 4 * (index + (node :: rest).length) := by
            simp only [List.length_cons]
            omega
          omega
      have hd2 : p + 4 ≤ kparambuf_poffset_ofs + 4 * st1.2 ∨
          kparambuf_poffset_ofs + 4 * (st1.2 + rest.length) ≤ p := by
        rw [s1.1]
        rcases hd with hl | hr
        · left; omega
        · right
          have : index + 1 + rest.length = index + (node :: rest).length := by
            simp only [List.length_cons]
            omega
          omega
      rw [s2.2.2 p (le_trans hp s1.2.1) hd2, s1.2.2 p hp hd1]



theorem STROMALIGN_ge (x : Nat) : x ≤ STROMALIGN x := by
  unfold STROMALIGN TYPEALIGN STROMALIGN_LEN
  omega

/-- Claim C10: for every parameter list containing a Param node whose
resolution context is absent (no param_list_info) or whose paramid lies
outside [1, numParams], pgstrom_create_kern_parambuf raises no error for
that node (its loop step falls through, only padding the buffer and
advancing the index), and the node's offset slot stays 0 in any
successfully built buffer, so the parameter reads back as null. -/
theorem C10_bad_param_silently_null (get_typlen : Nat → Int) (pre post : List PgNode)
    (param : ParamNode) (econtext : ExprContext)
    (hbad : ∀ info, econtext.ecxt_param_list_info = some info →
      ¬ (param.paramid > 0 ∧ param.paramid ≤ info.numParams)) :
    (∀ (str : List Nat) (index : Nat),
      kparambufStep get_typlen econtext (.paramNode param) str index
        = .ok (stromalignPad str, index + 1)) ∧
    (∀ buf, pgstrom_create_kern_parambuf get_typlen
        (pre ++ .paramNode param :: post) econtext = .ok buf →
      readU32At buf (kparambuf_poffset_ofs + 4 * pre.length) = 0) := by
  constructor
  · intro str index
    exact kparambufStep_bad_param get_typlen econtext param str index hbad
  · intro buf hbuild
    have hofs : kparambuf_poffset_ofs = 8 := rfl
    simp only [pgstrom_create_kern_parambuf] at hbuild
    have hlen0 : kparambuf_poffset_ofs + 4 * pre.length + 4
        ≤ (List.replicate (STROMALIGN (kparambuf_poffset_ofs
            + 4 * (pre ++ PgNode.paramNode param :: post).length)) 0).length := by
      rw [List.length_replicate]
      have h1 := STROMALIGN_ge (kparambuf_poffset_ofs
        + 4 * (pre ++ PgNode.paramNode param :: post).length)
      have h2 : pre.length + 1 ≤ (pre ++ PgNode.paramNode param :: post).length := by
        simp only [List.length_append, List.length_cons]
        omega
      omega
    cases hloop : kparambufLoop get_typlen econtext
        (pre ++ PgNode.paramNode param :: post)
        (List.replicate (STROMALIGN (kparambuf_poffset_ofs
          + 4 * (pre ++ PgNode.paramNode param :: post).length)) 0) 0 with
    | error e =>
      rw [hloop] at hbuild
      exact absurd hbuild (by simp)
    | ok st =>
      rw [hloop] at hbuild
      injection hbuild with hbuild
      subst hbuild
      rw [kparambufLoop_append] at hloop
      cases hpre : kparambufLoop get_typlen econtext pre
          (List.replicate (STROMALIGN (kparambuf_poffset_ofs
            + 4 * (pre ++ PgNode.paramNode param :: post).length)) 0) 0 with
      | error e => rw [hpre] at hloop; exact absurd hloop (by simp)
      | ok st1 =>
        rw [hpre] at hloop
        have inv1 := kparambufLoop_ok_inv hpre
        simp only [kparambufLoop] at hloop
        rw [kparambufStep_bad_param get_typlen econtext param st1.1 st1.2
          hbad] at hloop
        have inv2 := kparambufLoop_ok_inv hloop
        have hidx1 : st1.2 = pre.length := by
          rw [inv1.1]; omega
        have hp1 : readU32At st1.1 (kparambuf_poffset_ofs + 4 * pre.length)
            = 0 := by
          rw [inv1.2.2 _ hlen0 (Or.inr (by omega)),
              readU32At_replicate_zero]
        have hlen1 : kparambuf_poffset_ofs + 4 * pre.length + 4
            ≤ st1.1.length := le_trans hlen0 inv1.2.1
        have hp2 : readU32At st.1 (kparambuf_poffset_ofs + 4 * pre.length)
            = 0 := by
          rw [inv2.2.2 _ (le_trans hlen1 (stromalignPad_length_ge _))
              (Or.inl (by rw [hidx1]; omega)),
            readU32At_pad hlen1, hp1]
        rw [readU32At_writeU32At_disjoint (Or.inr (by omega)),
            readU32At_writeU32At_disjoint (Or.inr (by omega)), hp2]



theorem c7_buf_eq (v : Nat) :
    pgstrom_create_kern_parambuf ex_typlen (c7_nodes v) c10_no_info_ectx
      = .ok ([32, 0, 0, 0, 2, 0, 0, 0, 0, 0, 0, 0, 16, 0, 0, 0]
             ++ leBytes v 4 ++ List.replicate 12 0) := by
  simp only [pgstrom_create_kern_parambuf, c7_nodes, kparambufLoop,
    kparambufStep, appendDatumBytes, stromalignPad, writeU32At,
    STROMALIGN, TYPEALIGN, STROMALIGN_LEN, kparambuf_poffset_ofs]
  norm_num
  simp only [List.replicate, List.set_cons_zero, List.set_cons_succ,
    List.length_cons, List.length_append, List.length_nil, leBytes,
    List.length_map, List.length_range, List.cons_append, List.nil_append]
  norm_num [Nat.shiftRight_eq_div_pow]
  have h4 : Int.toNat 4 = 4 := rfl
  rw [h4]
  exact ⟨by norm_num, by norm_num, by norm_num, by norm_num, rfl⟩



set_option linter.unusedVariables false in
/-- Claim C7: for the parameter list of two constants — a null one and a
non-null 4-byte by-value integer with Datum word v — the produced buffer
has nparams = 2, poffset[0] = 0, poffset[1] nonzero, the 4 bytes at
poffset[1] equal to the integer's little-endian byte representation, and
a total length field equal to the buffer's (aligned) final write
position. -/
theorem C7_two_const_parambuf_scenario (v : Nat) (hv : v < 2 ^ 32) (buf : List Nat)
    (hbuild : pgstrom_create_kern_parambuf ex_typlen (c7_nodes v)
        c10_no_info_ectx = .ok buf) :
    readU32At buf 4 = 2 ∧
    readU32At buf 8 = 0 ∧
    readU32At buf 12 ≠ 0 ∧
    (List.range 4).map (fun k => buf.getD (readU32At buf 12 + k) 0)
      = leBytes v 4 ∧
    readU32At buf 0 = buf.length ∧
    buf.length = STROMALIGN (STROMALIGN (kparambuf_poffset_ofs + 4 * 2) + 4) := by
  rw [c7_buf_eq v] at hbuild
  injection hbuild with hbuild
  subst hbuild
  have hlen : ([32, 0, 0, 0, 2, 0, 0, 0, 0, 0, 0, 0, 16, 0, 0, 0]
      ++ leBytes v 4 ++ List.replicate 12 0).length = 32 := by
    simp [leBytes]
  have h16 : readU32At ([32, 0, 0, 0, 2, 0, 0, 0, 0, 0, 0, 0, 16, 0, 0, 0]
      ++ leBytes v 4 ++ List.replicate 12 0) 12 = 16 := rfl
  refine ⟨rfl, rfl, ?_, ?_, ?_, ?_⟩
  · rw [h16]; decide
  · rw [h16]; rfl
  · rw [hlen]; rfl
  · rw [hlen]; rfl


/-- Witness for claim C7 at v = 0x12345678 = 305419896. -/
theorem C7_witness :
    (305419896 : Nat) < 2 ^ 32 ∧
    pgstrom_create_kern_parambuf ex_typlen (c7_nodes 305419896)
        c10_no_info_ectx = .ok c7_witness_buf ∧
    (readU32At c7_witness_buf 4 = 2 ∧
     readU32At c7_witness_buf 8 = 0 ∧
     readU32At c7_witness_buf 12 ≠ 0 ∧
     (List.range 4).map
         (fun k => c7_witness_buf.getD (readU32At c7_witness_buf 12 + k) 0)
       = leBytes 305419896 4 ∧
     readU32At c7_witness_buf 0 = c7_witness_buf.length ∧
     c7_witness_buf.length
       = STROMALIGN (STROMALIGN (kparambuf_poffset_ofs + 4 * 2) + 4)) :=
  ⟨by decide, by decide,
   C7_two_const_parambuf_scenario 305419896 (by decide) c7_witness_buf
     (by decide)⟩

/-- Witness for claim C10: paramid 7 against a one-parameter context —
the step only pads, and the built one-node buffer keeps offset slot 0. -/
theorem C10_witness :
    (∀ info, c10_one_param_ectx.ecxt_param_list_info = some info →
      ¬ (c10_bad_pnode.paramid > 0 ∧ c10_bad_pnode.paramid ≤ info.numParams)) ∧
    kparambufStep ex_typlen c10_one_param_ectx (.paramNode c10_bad_pnode)
        (List.replicate 16 0) 0
      = .ok (stromalignPad (List.replicate 16 0), 1) ∧
    readU32At [16, 0, 0, 0, 1, 0, 0, 0, 0, 0, 0, 0, 0, 0, 0, 0] 8 = 0 := by
  have hbad : ∀ info, c10_one_param_ectx.ecxt_param_list_info = some info →
      ¬ (c10_bad_pnode.paramid > 0 ∧ c10_bad_pnode.paramid ≤ info.numParams) := by
    intro info h
    injection h with h
    subst h
    decide
  exact ⟨hbad,
    (C10_bad_param_silently_null ex_typlen [] [] c10_bad_pnode
      c10_one_param_ectx hbad).1 (List.replicate 16 0) 0,
    (C10_bad_param_silently_null ex_typlen [] [] c10_bad_pnode
      c10_one_param_ectx hbad).2
      [16, 0, 0, 0, 1, 0, 0, 0, 0, 0, 0, 0, 0, 0, 0, 0] (by decide)⟩

/-! ## Claim C6 -/

/-- Claim C6 (refutation by evaluation): file-mapped chunk creation does
create a temporary file, truncate it to the computed chunk length (4144
here), record that length in the chunk header, and close the descriptor
right after mapping — but the mmap length argument is the local variable
kds_length that the source never assigns (the model's uninit_kds_length
parameter, here 0), not the computed chunk length, so the mapped region
length differs from the recorded one. -/
theorem C6_create_row_mmap_length_uninitialized :
    (pgstrom_create_data_store_row c6_tupdesc 4096 true 0).events
      = [.fileCreate, .fileTruncate 4144, .fileMmap 0 true true true,
         .fileClose] ∧
    (pgstrom_create_data_store_row c6_tupdesc 4096 true 0).kds_length
      = 4144 ∧
    (pgstrom_create_data_store_row c6_tupdesc 4096 true 0).kds.length
      = 4144 ∧
    FsEvent.fileMmap 0 true true true
      ≠ FsEvent.fileMmap
          (pgstrom_create_data_store_row c6_tupdesc 4096 true 0).kds_length
          true true true :=
  ⟨by decide, by decide, by decide, by decide⟩

/-- Witness for claim C9: a 32-item array with L = 16 (part size 32, all
write-backs loaded), and a 2049-item array with L = 2048 (part size 2049
exceeds the cap, exactly one never-loaded entry survives). -/
theorem C9_witness :
    (partSizeAt 16 32 0 ≤ 2048 ∧
     ∀ x ∈ gpusort_bitonic_merge_writeback (fun _ _ => 0) Prod.fst 16 32 0
         (List.replicate 32 ((0 : Nat), true))
         (List.replicate 32 ((0 : Nat), false)), x.2 = true) ∧
    (2048 < partSizeAt 2048 2049 0 ∧
     (gpusort_bitonic_merge_writeback (fun _ _ => 0) Prod.fst 2048 2049 0
         (List.replicate 2049 ((0 : Nat), true))
         (List.replicate 4096 ((0 : Nat), false))).countP (fun x => !x.2)
       = partSizeAt 2048 2049 0 - 2048) := by
  have hmem1 : ∀ x ∈ List.replicate 32 ((0 : Nat), true), x.2 = true := by
    intro x hx
    rw [List.eq_of_mem_replicate hx]
  have hmem2 : ∀ x ∈ List.replicate 32 ((0 : Nat), false), x.2 = false := by
    intro x hx
    rw [List.eq_of_mem_replicate hx]
  have hmem3 : ∀ x ∈ List.replicate 2049 ((0 : Nat), true), x.2 = true := by
    intro x hx
    rw [List.eq_of_mem_replicate hx]
  have hmem4 : ∀ x ∈ List.replicate 4096 ((0 : Nat), false), x.2 = false := by
    intro x hx
    rw [List.eq_of_mem_replicate hx]
  refine ⟨⟨by decide, ?_⟩, ⟨by decide, ?_⟩⟩
  · exact (C9_gpusort_bitonic_merge_shmem_cap (fun _ _ => 0) 16 32 0
      (List.replicate 32 ((0 : Nat), true))
      (List.replicate 32 ((0 : Nat), false))
      (by simp) (by simp) hmem1 hmem2).1 (by decide)
  · exact ((C9_gpusort_bitonic_merge_shmem_cap (fun _ _ => 0) 2048 2049 0
      (List.replicate 2049 ((0 : Nat), true))
      (List.replicate 4096 ((0 : Nat), false))
      (by rw [List.length_replicate]) (by rw [List.length_replicate])
      hmem3 hmem4).2 (by decide)).1

end PgStrom
